import Mathlib

/-!
Shallow embedding of the target-aggregation core of netdata's `apps_plugin`
(the file containing `zero_all_targets`, `aggregate_pid_on_target`,
`cleanup_exited_pids`, `matched_apps_groups_target`,
`get_apps_groups_target_for_pid`, `assign_a_target_to_all_processes` and
`aggregate_processes_to_targets`).

Modeling conventions:

* `n` plays the role of `PDF_MAX`, the size of the per-process metric array;
  a distinguished index `u : Fin n` plays the role of `PDF_UPTIME`.
* Metric counters (`kernel_uint_t`) are modeled as natural numbers; the
  element-wise additions of the source are ordinary `Nat` addition.
* A pointer to a `struct target` is modeled as an index into the owning
  target list (`apps_groups_root_target`, `users_root_target`,
  `groups_root_target`); a nullable pointer is an `Option Nat`.
* A parent pointer (`p->parent`) is an index into the pid list.  The parent
  chain of a live process tree is acyclic and points to already-existing
  processes, so the chain walk only follows links to strictly smaller
  indices; a link that does not decrease is treated as the end of the chain.
* Interned `STRING *` values are Lean `String`s: pointer equality of interned
  strings coincides with string equality.
* A compiled `SIMPLE_PATTERN` is an opaque match predicate `String → Bool`
  (the pattern engine is an external capability of this core).
* Platform-conditional `#if` blocks (file-descriptor tables, pid limits) and
  debug-only bookkeeping (`w->root_pid` member lists, log messages) are
  outside the scope of the modeled claims and are omitted; the logging calls
  (`netdata_log_error`, `debug_log`) have no state effect.
-/

namespace AppsPlugin

/-- The `TARGET_TYPE_*` enumeration: configured application group, tree
fallback, user (uid) and group (gid) targets. -/
inductive TargetType where
  | app_group
  | tree
  | uid
  | gid
deriving DecidableEq

/-- One `struct target`: an aggregation bucket.  `ag_pattern`/`ag_compare`
model the `w->ag` union (a compiled pattern or an exact compare string),
`target` models the alias pointer `w->target`, `ident` models the numeric
uid/gid identity (and, for tree targets, the tree position key), and
`values`/`uptime_min`/`uptime_max` are the per-cycle accumulators. -/
structure Target (n : Nat) where
  type : TargetType
  starts_with : Bool
  ends_with : Bool
  ag_pattern : Option (String → Bool)
  ag_compare : String
  target : Option Nat
  ident : Nat
  values : Fin n → Nat
  uptime_min : Nat
  uptime_max : Nat

/-- One `struct pid_stat`: the bookkeeping record of one observed process. -/
structure PidStat (n : Nat) where
  pid : Nat
  comm : String
  comm_orig : String
  cmdline : Option String
  parent : Option Nat
  is_manager : Bool
  updated : Bool
  keep : Bool
  keeploops : Nat
  matched_by_config : Bool
  target : Option Nat
  uid : Nat
  gid : Nat
  uid_target : Option Nat
  gid_target : Option Nat
  values : Fin n → Nat

/-- The three target registries mutated by the aggregation loop. -/
structure AggState (n : Nat) where
  apps : List (Target n)
  uids : List (Target n)
  gids : List (Target n)

/-- The global state of the core: the pid list rooted at `root_of_pids()`,
the three target registries and the two diagnostic counters. -/
structure SysState (n : Nat) where
  pids : List (PidStat n)
  apps_groups_root_target : List (Target n)
  users_root_target : List (Target n)
  groups_root_target : List (Target n)
  targets_assignment_counter : Nat
  apps_groups_targets_count : Nat

variable {n : Nat}

/-- `is_process_manager(p)`: whether the process is a supervisor/container
boundary. -/
def is_process_manager (p : PidStat n) : Bool :=
  p.is_manager

/-- `simple_pattern_matches_string`: the external pattern-matching
capability, applied to a compiled pattern. -/
def simple_pattern_matches_string (pat : String → Bool) (s : String) : Bool :=
  pat s

/-- `string_starts_with_string(s, q)`: `s` starts with `q`. -/
def string_starts_with_string (s q : String) : Bool :=
  s.startsWith q

/-- `string_ends_with_string(s, q)`: `s` ends with `q`. -/
def string_ends_with_string (s q : String) : Bool :=
  s.endsWith q

/-- Whether `needle` occurs as a contiguous run inside the list. -/
def char_list_contains (needle : List Char) : List Char → Bool
  | [] => needle.isEmpty
  | c :: rest => List.isPrefixOf needle (c :: rest) || char_list_contains needle rest

/-- `strstr(hay, needle) != NULL`: substring containment. -/
def strstr_contains (hay needle : String) : Bool :=
  char_list_contains needle.toList hay.toList

/-- Apply `f` to the element at index `i`, if it exists (mutation of the
target a pointer designates). -/
def listUpdate (ts : List α) (i : Nat) (f : α → α) : List α :=
  match ts.get? i with
  | some w => ts.set i (f w)
  | none => ts

/-- `zero_all_targets` on one list element: reset the accumulators
(`w->values[f] = 0`, `w->uptime_min = 0`, `w->uptime_max = 0`). -/
def zero_one_target (w : Target n) : Target n :=
  { w with values := fun _ => 0, uptime_min := 0, uptime_max := 0 }

/-- `zero_all_targets(root)`: zero every target's accumulator and return the
number of targets in the list. -/
def zero_all_targets (ts : List (Target n)) : List (Target n) × Nat :=
  (ts.map zero_one_target, ts.length)

/-- The accumulator update of `aggregate_pid_on_target` on the designated
target: element-wise `w->values[f] += p->values[f]` and the sentinel-based
uptime min/max updates (`0` is the "unset" sentinel). -/
def aggregate_pid_fold (u : Fin n) (p : PidStat n) (w : Target n) : Target n :=
  { w with
    values := fun f => w.values f + p.values f,
    uptime_min :=
      if w.uptime_min = 0 ∨ p.values u < w.uptime_min then p.values u
      else w.uptime_min,
    uptime_max :=
      if w.uptime_max = 0 ∨ w.uptime_max < p.values u then p.values u
      else w.uptime_max }

/-- `aggregate_pid_on_target(w, p, o)`: skip processes not updated this
cycle; a null target logs an error (`pid ... was left without a target!`)
and drops the contribution; otherwise fold `p` into the target `w` points
at. -/
def aggregate_pid_on_target (u : Fin n) (wi : Option Nat) (p : PidStat n)
    (ts : List (Target n)) : List (Target n) :=
  if p.updated = false then ts
  else
    match wi with
    | none => ts
    | some i => listUpdate ts i (aggregate_pid_fold u p)

/-- `cleanup_exited_pids()`: destroy every record with `updated == false`
unless `keep` is set and `keeploops` is still zero; a surviving record has
`keeploops` incremented when `keep` was set, and `keep` is always cleared. -/
def cleanup_exited_pids : List (PidStat n) → List (PidStat n)
  | [] => []
  | p :: rest =>
    if p.updated = false ∧ (p.keep = false ∨ 0 < p.keeploops) then
      cleanup_exited_pids rest
    else
      { p with
        keeploops := if p.keep then p.keeploops + 1 else p.keeploops,
        keep := false } :: cleanup_exited_pids rest

/-- `matched_apps_groups_target(p, w)`: a process manager is never matched;
otherwise mark the process `matched_by_config` and bind it to the alias
target `w->target` when configured, else to `w` itself (index `i`). -/
def matched_apps_groups_target (p : PidStat n) (w : Target n) (i : Nat) :
    Option Nat × PidStat n :=
  if is_process_manager p then (none, p)
  else
    (some (match w.target with | some a => a | none => i),
     { p with matched_by_config := true })

/-- The rule test of one iteration of the `get_apps_groups_target_for_pid`
scan: the four match modes selected by `starts_with`/`ends_with`, each with
a pattern form and an exact-compare form. -/
def apps_rule_matches (w : Target n) (p : PidStat n) : Bool :=
  if !w.starts_with && !w.ends_with then
    match w.ag_pattern with
    | some pat => simple_pattern_matches_string pat p.comm
    | none => w.ag_compare == p.comm || w.ag_compare == p.comm_orig
  else if w.starts_with && !w.ends_with then
    match w.ag_pattern with
    | some pat => simple_pattern_matches_string pat p.comm
    | none =>
      string_starts_with_string p.comm w.ag_compare ||
        (p.comm != p.comm_orig && string_starts_with_string p.comm w.ag_compare)
  else if !w.starts_with && w.ends_with then
    match w.ag_pattern with
    | some pat => simple_pattern_matches_string pat p.comm
    | none =>
      string_ends_with_string p.comm w.ag_compare ||
        (p.comm != p.comm_orig && string_ends_with_string p.comm w.ag_compare)
  else
    match p.cmdline with
    | none => false
    | some cl =>
      match w.ag_pattern with
      | some pat => simple_pattern_matches_string pat cl
      | none => strstr_contains cl w.ag_compare

/-- The scan loop of `get_apps_groups_target_for_pid`: walk the target list
in configuration order (`i` is the index of the head of the remaining
list), skip non-`TARGET_TYPE_APP_GROUP` entries, and return at the first
matching rule. -/
def apps_scan (p : PidStat n) : Nat → List (Target n) → Option Nat × PidStat n
  | _, [] => (none, p)
  | i, w :: rest =>
    if w.type ≠ TargetType.app_group then apps_scan p (i + 1) rest
    else if apps_rule_matches w p then matched_apps_groups_target p w i
    else apps_scan p (i + 1) rest

/-- `get_apps_groups_target_for_pid(p)`: scan `apps_groups_root_target` in
configuration order; the `targets_assignment_counter++` side effect is
accounted by the caller (`assign_pass1`). -/
def get_apps_groups_target_for_pid (ts : List (Target n)) (p : PidStat n) :
    Option Nat × PidStat n :=
  apps_scan p 0 ts

/-- A freshly created target with zeroed accumulators and numeric identity
`v` (the shape shared by lazily created uid/gid targets and tree targets). -/
def mk_ident_target (ty : TargetType) (v : Nat) : Target n :=
  { type := ty, starts_with := false, ends_with := false, ag_pattern := none,
    ag_compare := "", target := none, ident := v,
    values := fun _ => 0, uptime_min := 0, uptime_max := 0 }

/-- Index of the first target with numeric identity `v`. -/
def find_ident_idx (v : Nat) : List (Target n) → Option Nat
  | [] => none
  | w :: rest =>
    if w.ident = v then some 0 else (find_ident_idx v rest).map (· + 1)

/-- Modelled from the spec: `get_uid_target`/`get_gid_target` are not part
of the given sources; per the spec they look the uid/gid target up in its
registry and lazily create it (appending a fresh zeroed target) when the
identity has not been seen before, never failing. -/
def get_ident_target (ty : TargetType) (v : Nat) (ts : List (Target n)) :
    Nat × List (Target n) :=
  match find_ident_idx v ts with
  | some i => (i, ts)
  | none => (ts.length, ts ++ [mk_ident_target ty v])

/-- The cached-reference check of the aggregation loop:
`if(p->uid_target && p->uid_target->uid == p->uid) w = p->uid_target; else
w = p->uid_target = get_uid_target(p->uid);` (and the same for gid).  A
cached index that no longer designates a target of the right identity is
re-resolved through the registry. -/
def resolve_ident_target (ty : TargetType) (cur : Option Nat) (v : Nat)
    (ts : List (Target n)) : Nat × List (Target n) :=
  match cur with
  | some k =>
    match ts.get? k with
    | some w => if w.ident = v then (k, ts) else get_ident_target ty v ts
    | none => get_ident_target ty v ts
  | none => get_ident_target ty v ts

/-- Index of the first tree target with tree key `k`. -/
def find_tree_idx (k : Nat) : List (Target n) → Option Nat
  | [] => none
  | w :: rest =>
    if w.type = TargetType.tree ∧ w.ident = k then some 0
    else (find_tree_idx k rest).map (· + 1)

/-- Modelled from the spec: `get_tree_target` is not part of the given
sources; per the spec it synthesizes a target from the process's position
in the process tree (abstracted here to the process id as the tree key),
creating it in `apps_groups_root_target` when absent, and always returns a
valid (non-null) target. -/
def get_tree_target (ts : List (Target n)) (p : PidStat n) :
    Nat × List (Target n) :=
  match find_tree_idx p.pid ts with
  | some i => (i, ts)
  | none => (ts.length, ts ++ [mk_ident_target TargetType.tree p.pid])

/-- The parent-chain walk of the second pass of
`assign_a_target_to_all_processes`, looking at the ancestor at index `j`:
stop at a process-manager boundary; at the first ancestor with a target,
inherit it only when that ancestor was matched by configuration; otherwise
continue to the grandparent.  Parent links point to already-existing
(strictly smaller-index) records; a non-decreasing link ends the chain, and
`fuel` (always called with `fuel > j`, so never exhausted along decreasing
links) makes the recursion structural. -/
def walk_go (ps : List (PidStat n)) : Nat → Nat → Option Nat
  | 0, _ => none
  | fuel + 1, j =>
    match ps.get? j with
    | none => none
    | some pp =>
      if pp.is_manager then none
      else
        match pp.target with
        | some t => if pp.matched_by_config then some t else none
        | none =>
          match pp.parent with
          | none => none
          | some j2 => if j2 < j then walk_go ps fuel j2 else none

/-- The parent-chain walk starting at the ancestor at index `j`. -/
def walk_parents (ps : List (PidStat n)) (j : Nat) : Option Nat :=
  walk_go ps (j + 1) j

/-- The first ancestor (looking at index `j`) at which the parent-chain
walk stops: a process manager or a record with a resolved target
(fuel-structured exactly like `walk_go`). -/
def stop_go (ps : List (PidStat n)) : Nat → Nat → Option (PidStat n)
  | 0, _ => none
  | fuel + 1, j =>
    match ps.get? j with
    | none => none
    | some pp =>
      if pp.is_manager then some pp
      else
        match pp.target with
        | some _ => some pp
        | none =>
          match pp.parent with
          | none => none
          | some j2 => if j2 < j then stop_go ps fuel j2 else none

/-- The first stopping ancestor of the chain starting at index `j`. -/
def first_stop (ps : List (PidStat n)) (j : Nat) : Option (PidStat n) :=
  stop_go ps (j + 1) j

/-- The inheritance attempt of the second pass for one process: never for a
process manager; otherwise walk the parent chain. -/
def pass2_inherit (ps : List (PidStat n)) (p : PidStat n) : Option Nat :=
  if p.is_manager then none
  else
    match p.parent with
    | some j => walk_parents ps j
    | none => none

/-- The body of the second pass of `assign_a_target_to_all_processes` for
the process at index `k`: if it still has no target, try inheritance, then
fall back to the tree target. -/
def pass2_step (ps : List (PidStat n)) (ts : List (Target n)) (k : Nat) :
    List (PidStat n) × List (Target n) :=
  match ps.get? k with
  | none => (ps, ts)
  | some p =>
    match p.target with
    | some _ => (ps, ts)
    | none =>
      match pass2_inherit ps p with
      | some t => (ps.set k { p with target := some t }, ts)
      | none =>
        let r := get_tree_target ts p
        (ps.set k { p with target := some r.1 }, r.2)

/-- The second pass of `assign_a_target_to_all_processes`, run over the
indices `ks` of the pid list in order. -/
def pass2_go (ps : List (PidStat n)) (ts : List (Target n)) :
    List Nat → List (PidStat n) × List (Target n)
  | [] => (ps, ts)
  | k :: ks =>
    let r := pass2_step ps ts k
    pass2_go r.1 r.2 ks

/-- The first pass of `assign_a_target_to_all_processes`: give every
process without a target its `app_groups.conf` match (possibly none), and
count the calls to `get_apps_groups_target_for_pid` (the
`targets_assignment_counter` increments). -/
def assign_pass1 (ts : List (Target n)) :
    List (PidStat n) → List (PidStat n) × Nat
  | [] => ([], 0)
  | p :: rest =>
    let r := assign_pass1 ts rest
    match p.target with
    | some _ => (p :: r.1, r.2)
    | none =>
      let m := get_apps_groups_target_for_pid ts p
      ({ m.2 with target := m.1 } :: r.1, r.2 + 1)

/-- `assign_a_target_to_all_processes()`: the configured-pattern pass
followed by the inheritance/tree-fallback pass (which may create tree
targets in `apps_groups_root_target`). -/
def assign_a_target_to_all_processes (st : SysState n) : SysState n :=
  let r1 := assign_pass1 st.apps_groups_root_target st.pids
  let r2 := pass2_go r1.1 st.apps_groups_root_target (List.range r1.1.length)
  { st with
    pids := r2.1,
    apps_groups_root_target := r2.2,
    targets_assignment_counter := st.targets_assignment_counter + r1.2 }

/-- The body of the aggregation loop of `aggregate_processes_to_targets`
for one process: fold into the apps/tree target `p->target`, then resolve
(and rebind) the uid target and fold, then the gid target. -/
def aggregate_one (u : Fin n) (ag : AggState n) (p : PidStat n) :
    AggState n × PidStat n :=
  let apps2 := aggregate_pid_on_target u p.target p ag.apps
  let r1 := resolve_ident_target TargetType.uid p.uid_target p.uid ag.uids
  let uids2 := aggregate_pid_on_target u (some r1.1) p r1.2
  let r2 := resolve_ident_target TargetType.gid p.gid_target p.gid ag.gids
  let gids2 := aggregate_pid_on_target u (some r2.1) p r2.2
  (⟨apps2, uids2, gids2⟩,
   { p with uid_target := some r1.1, gid_target := some r2.1 })

/-- The aggregation loop over the pid list, returning the final registries
and the pid list with rebound uid/gid target references. -/
def agg_loop (u : Fin n) (ag : AggState n) :
    List (PidStat n) → AggState n × List (PidStat n)
  | [] => (ag, [])
  | p :: rest =>
    let s := aggregate_one u ag p
    let r := agg_loop u s.1 rest
    (r.1, s.2 :: r.2)

/-- `aggregate_processes_to_targets()`: assign targets, zero every
registry, fold every process into its resolved targets, then reap exited
processes. -/
def aggregate_processes_to_targets (u : Fin n) (st : SysState n) : SysState n :=
  let st1 := assign_a_target_to_all_processes st
  let z := zero_all_targets st1.apps_groups_root_target
  let uids0 := (zero_all_targets st1.users_root_target).1
  let gids0 := (zero_all_targets st1.groups_root_target).1
  let r := agg_loop u ⟨z.1, uids0, gids0⟩ st1.pids
  { st1 with
    pids := cleanup_exited_pids r.2,
    apps_groups_root_target := r.1.apps,
    users_root_target := r.1.uids,
    groups_root_target := r.1.gids,
    apps_groups_targets_count := z.2 }

/-- The metric values (at dimension `f`) of the updated processes resolved
to target index `i` through the reference `sel`. -/
def memberVals (ps : List (PidStat n)) (sel : PidStat n → Option Nat)
    (i : Nat) (f : Fin n) : List Nat :=
  (ps.filter (fun p => p.updated && (sel p == some i))).map (fun p => p.values f)

/-- The component-wise sum of the member metrics of target index `i`. -/
def contribSum (ps : List (PidStat n)) (sel : PidStat n → Option Nat)
    (i : Nat) (f : Fin n) : Nat :=
  (memberVals ps sel i f).sum

/-- `m` is the minimum of the non-empty list `xs`. -/
def IsMinOf (m : Nat) (xs : List Nat) : Prop :=
  m ∈ xs ∧ ∀ y ∈ xs, m ≤ y

/-- `m` is the maximum of the non-empty list `xs`. -/
def IsMaxOf (m : Nat) (xs : List Nat) : Prop :=
  m ∈ xs ∧ ∀ y ∈ xs, y ≤ m

/-- The state of a sentinel-based running minimum: either still unset (`0`
with no contributions) or the minimum of the contributions so far. -/
def MinState (m : Nat) (xs : List Nat) : Prop :=
  (xs = [] ∧ m = 0) ∨ IsMinOf m xs

/-- The state of a sentinel-based running maximum. -/
def MaxState (m : Nat) (xs : List Nat) : Prop :=
  (xs = [] ∧ m = 0) ∨ IsMaxOf m xs

/-- The metric values of the target at index `i`, or `0` when the index
designates no target. -/
def baseVals (ts : List (Target n)) (i : Nat) (f : Fin n) : Nat :=
  match ts.get? i with
  | some w => w.values f
  | none => 0

/-- The uptime min/max accumulators of the target at index `i` are in
min/max state `xs`; an absent index stands for a yet-uncreated target with
no contributions. -/
def UptimeBase (ts : List (Target n)) (i : Nat) (xs : List Nat) : Prop :=
  match ts.get? i with
  | some w => MinState w.uptime_min xs ∧ MaxState w.uptime_max xs
  | none => xs = []

/-- The apps/tree-target projection of the aggregation loop: the plain fold
of every process into the target its `target` reference designates. -/
def apps_fold (u : Fin n) (ts : List (Target n)) :
    List (PidStat n) → List (Target n)
  | [] => ts
  | p :: rest => apps_fold u (aggregate_pid_on_target u p.target p ts) rest

/-- The spec's description of the `starts_with`-only exact-compare mode: a
single prefix test of the compare string against `comm`. -/
def spec_prefix_mode_match (p : PidStat n) (cmp : String) : Bool :=
  string_starts_with_string p.comm cmp

/-- The spec's description of the `ends_with`-only exact-compare mode: a
single suffix test of the compare string against `comm`. -/
def spec_suffix_mode_match (p : PidStat n) (cmp : String) : Bool :=
  string_ends_with_string p.comm cmp

/-- The record at index `j`, if present, has a resolved (non-null) target
reference. -/
def TargAt (ps : List (PidStat n)) (j : Nat) : Prop :=
  ∀ p, ps.get? j = some p → p.target.isSome = true

/-! Concrete records used by the concrete-instance theorems. -/

/-- A concrete process record (dimension 1). -/
def samplePid : PidStat 1 :=
  { pid := 1, comm := "mysqld", comm_orig := "mysqld", cmdline := none,
    parent := none, is_manager := false, updated := true, keep := false,
    keeploops := 0, matched_by_config := false, target := some 0, uid := 4,
    gid := 5, uid_target := none, gid_target := none, values := fun _ => 0 }

/-- A concrete application-group target (dimension 1). -/
def sampleTarget : Target 1 :=
  { type := TargetType.app_group, starts_with := false, ends_with := false,
    ag_pattern := none, ag_compare := "mysqld", target := none, ident := 0,
    values := fun _ => 7, uptime_min := 3, uptime_max := 9 }

/-- A concrete system state whose only process is unclassified (it will be
resolved through the tree fallback). -/
def sampleSys : SysState 1 :=
  { pids := [{ samplePid with target := none, comm := "zsh", comm_orig := "zsh" }],
    apps_groups_root_target := [sampleTarget], users_root_target := [],
    groups_root_target := [], targets_assignment_counter := 0,
    apps_groups_targets_count := 0 }

/-- A concrete configuration-matched ancestor. -/
def sampleAncestor : PidStat 1 :=
  { samplePid with target := some 3, matched_by_config := true }

/-- A concrete unclassified child of `sampleAncestor` (parent index 0). -/
def sampleChild : PidStat 1 :=
  { samplePid with pid := 2, target := none, parent := some 0 }

/-- The concrete two-process chain `[sampleAncestor, sampleChild]`. -/
def sampleChain : List (PidStat 1) :=
  [sampleAncestor, sampleChild]

/-- A concrete state with two updated members of target 0, uptimes 5 and 3. -/
def sampleAggSys : SysState 1 :=
  { pids := [{ samplePid with values := fun _ => 5 },
             { samplePid with pid := 2, values := fun _ => 3 }],
    apps_groups_root_target := [sampleTarget], users_root_target := [],
    groups_root_target := [], targets_assignment_counter := 0,
    apps_groups_targets_count := 0 }

/-- A concrete state with two updated members of target 0, uptimes 0 and 5
(a zero uptime collides with the "unset" sentinel). -/
def sampleZeroUptimeSys : SysState 1 :=
  { pids := [samplePid, { samplePid with pid := 2, values := fun _ => 5 }],
    apps_groups_root_target := [sampleTarget], users_root_target := [],
    groups_root_target := [], targets_assignment_counter := 0,
    apps_groups_targets_count := 0 }

/-! Basic list-index lemmas. -/

theorem get?_set_self (l : List α) :
    ∀ (i : Nat) (a : α), i < l.length → (l.set i a).get? i = some a := by
  induction l with
  | nil => intro i a h; exact absurd h (Nat.not_lt_zero i)
  | cons x xs ih =>
    intro i a h
    cases i with
    | zero => rfl
    | succ i2 => exact ih i2 a (Nat.lt_of_succ_lt_succ h)

theorem get?_set_ne (l : List α) :
    ∀ (i j : Nat) (a : α), i ≠ j → (l.set i a).get? j = l.get? j := by
  induction l with
  | nil => intro i j a _; cases i <;> rfl
  | cons x xs ih =>
    intro i j a hne
    cases i with
    | zero =>
      cases j with
      | zero => exact absurd rfl hne
      | succ j2 => rfl
    | succ i2 =>
      cases j with
      | zero => rfl
      | succ j2 => exact ih i2 j2 a (fun h => hne (by rw [h]))

theorem get?_some_lt {l : List α} {k : Nat} {a : α} (h : l.get? k = some a) :
    k < l.length := by
  by_contra hk
  rw [List.get?_eq_none.mpr (Nat.le_of_not_lt hk)] at h
  cases h

/-! Lemmas about `cleanup_exited_pids`. -/

theorem cleanup_exited_pids_cons_dead (p : PidStat n) (rest : List (PidStat n))
    (h1 : p.updated = false) (h2 : p.keep = false ∨ 0 < p.keeploops) :
    cleanup_exited_pids (p :: rest) = cleanup_exited_pids rest := by
  rw [cleanup_exited_pids, if_pos ⟨h1, h2⟩]

theorem cleanup_exited_pids_cons_kept (p : PidStat n) (rest : List (PidStat n))
    (h : ¬(p.updated = false ∧ (p.keep = false ∨ 0 < p.keeploops))) :
    cleanup_exited_pids (p :: rest) =
      { p with keeploops := if p.keep then p.keeploops + 1 else p.keeploops,
               keep := false } :: cleanup_exited_pids rest := by
  rw [cleanup_exited_pids, if_neg h]

/-- C5 (amended): at reaping time, a record with `updated = false` whose
`keep` flag is set and whose `keeploops` is still zero is retained for the
cycle with `keeploops` incremented to 1 and `keep` cleared; a record with
`updated = false` and `keep` not set is destroyed immediately. -/
theorem cleanup_keep_policy (p : PidStat n) (rest : List (PidStat n))
    (h1 : p.updated = false) :
    (p.keep = true → p.keeploops = 0 →
      cleanup_exited_pids (p :: rest) =
        { p with keeploops := 1, keep := false } :: cleanup_exited_pids rest) ∧
    (p.keep = false →
      cleanup_exited_pids (p :: rest) = cleanup_exited_pids rest) := by
  constructor
  · intro hk hl
    rw [cleanup_exited_pids_cons_kept]
    · simp [hk, hl]
    · rintro ⟨-, h⟩
      rcases h with h | h
      · rw [hk] at h; cases h
      · rw [hl] at h; exact Nat.lt_irrefl 0 h
  · intro hk
    exact cleanup_exited_pids_cons_dead p rest h1 (Or.inl hk)

/-- C5 witness: both branches of the reaping policy at concrete records. -/
theorem cleanup_keep_policy_witness :
    cleanup_exited_pids [{ samplePid with updated := false, keep := true }] =
      [{ samplePid with updated := false, keep := false, keeploops := 1 }] ∧
    cleanup_exited_pids [{ samplePid with updated := false }] = [] := by
  constructor
  · exact (cleanup_keep_policy { samplePid with updated := false, keep := true }
      [] rfl).1 rfl rfl
  · exact (cleanup_keep_policy { samplePid with updated := false } [] rfl).2 rfl

/-- C5 counterexample: a record with `updated = false` and its `keep` flag
set is nevertheless destroyed immediately when `keeploops` is already
positive, contradicting the claim that every such record is retained. -/
theorem cleanup_keep_set_destroyed_cex :
    ({ samplePid with updated := false, keep := true, keeploops := 1 } :
        PidStat 1).updated = false ∧
    ({ samplePid with updated := false, keep := true, keeploops := 1 } :
        PidStat 1).keep = true ∧
    cleanup_exited_pids
      [{ samplePid with updated := false, keep := true, keeploops := 1 }] = [] :=
  ⟨rfl, rfl, rfl⟩

/-- C6: a record with `keeploops = 0` that becomes `updated = false` with
`keep = true` survives that cycle's reaping with `keeploops` becoming 1 and
`keep` cleared, and the resulting record (still not updated, `keep` not
re-set) is destroyed by the next cycle's reaping. -/
theorem keep_grants_exactly_one_cycle (p : PidStat n)
    (rest rest2 : List (PidStat n)) (h1 : p.updated = false)
    (h2 : p.keep = true) (h3 : p.keeploops = 0) :
    cleanup_exited_pids (p :: rest) =
      { p with keeploops := 1, keep := false } :: cleanup_exited_pids rest ∧
    cleanup_exited_pids ({ p with keeploops := 1, keep := false } :: rest2) =
      cleanup_exited_pids rest2 := by
  constructor
  · rw [cleanup_exited_pids_cons_kept]
    · simp [h2, h3]
    · rintro ⟨-, h⟩
      rcases h with h | h
      · rw [h2] at h; cases h
      · rw [h3] at h; exact Nat.lt_irrefl 0 h
  · exact cleanup_exited_pids_cons_dead _ rest2 h1 (Or.inl rfl)

/-- C6 witness: the one-extra-cycle grace period at a concrete record. -/
theorem keep_grants_exactly_one_cycle_witness :
    cleanup_exited_pids [{ samplePid with updated := false, keep := true }] =
      [{ { samplePid with updated := false, keep := true } with
         keeploops := 1, keep := false }] ∧
    cleanup_exited_pids
      [{ { samplePid with updated := false, keep := true } with
         keeploops := 1, keep := false }] = [] :=
  ⟨(keep_grants_exactly_one_cycle
      { samplePid with updated := false, keep := true } [] [] rfl rfl rfl).1,
   (keep_grants_exactly_one_cycle
      { samplePid with updated := false, keep := true } [] [] rfl rfl rfl).2⟩

/-- C9: for an exact-compare rule (no pattern object) with exactly one of
`starts_with`/`ends_with` set, the match outcome is a single prefix
(respectively suffix) test of the compare string against `comm`; the retry
branch re-tests `comm`, so the outcome is independent of `comm_orig`. -/
theorem prefix_suffix_mode_refinement (w : Target n) (p : PidStat n)
    (hpat : w.ag_pattern = none) :
    (w.starts_with = true → w.ends_with = false →
      apps_rule_matches w p = spec_prefix_mode_match p w.ag_compare) ∧
    (w.starts_with = false → w.ends_with = true →
      apps_rule_matches w p = spec_suffix_mode_match p w.ag_compare) ∧
    (((w.starts_with = true ∧ w.ends_with = false) ∨
      (w.starts_with = false ∧ w.ends_with = true)) →
      ∀ s, apps_rule_matches w { p with comm_orig := s } = apps_rule_matches w p) := by
  refine ⟨?_, ?_, ?_⟩
  · intro hs he
    simp only [apps_rule_matches, hs, he, hpat, spec_prefix_mode_match]
    cases string_starts_with_string p.comm w.ag_compare <;> simp
  · intro hs he
    simp only [apps_rule_matches, hs, he, hpat, spec_suffix_mode_match]
    cases string_ends_with_string p.comm w.ag_compare <;> simp
  · rintro (⟨hs, he⟩ | ⟨hs, he⟩) s <;>
      simp only [apps_rule_matches, hs, he, hpat]
    · cases string_starts_with_string p.comm w.ag_compare <;> simp
    · cases string_ends_with_string p.comm w.ag_compare <;> simp

/-- C9 witness: the prefix mode at a concrete rule and process. -/
theorem prefix_suffix_mode_refinement_witness :
    apps_rule_matches { sampleTarget with starts_with := true } samplePid =
      spec_prefix_mode_match samplePid "mysqld" :=
  (prefix_suffix_mode_refinement { sampleTarget with starts_with := true }
    samplePid rfl).1 rfl rfl

/-! Lemmas about the configured-pattern scan. -/

theorem apps_scan_cons_skip (p : PidStat n) (b : Nat) (w : Target n)
    (rest : List (Target n))
    (h : w.type = TargetType.app_group → apps_rule_matches w p = false) :
    apps_scan p b (w :: rest) = apps_scan p (b + 1) rest := by
  rw [apps_scan]
  by_cases hw : w.type = TargetType.app_group
  · rw [if_neg (fun hne => hne hw), if_neg (by simp [h hw])]
  · rw [if_pos hw]

theorem apps_scan_cons_match (p : PidStat n) (b : Nat) (w : Target n)
    (rest : List (Target n)) (hty : w.type = TargetType.app_group)
    (hm : apps_rule_matches w p = true) :
    apps_scan p b (w :: rest) = matched_apps_groups_target p w b := by
  rw [apps_scan, if_neg (fun hne => hne hty), if_pos hm]

theorem apps_scan_first_match (p : PidStat n) :
    ∀ (ts : List (Target n)) (b i : Nat) (hi : i < ts.length),
      ts[i].type = TargetType.app_group →
      apps_rule_matches ts[i] p = true →
      (∀ j (hj : j < ts.length), j < i →
        ts[j].type = TargetType.app_group → apps_rule_matches ts[j] p = false) →
      apps_scan p b ts = matched_apps_groups_target p ts[i] (b + i) := by
  intro ts
  induction ts with
  | nil => intro b i hi; exact absurd hi (Nat.not_lt_zero i)
  | cons w rest ih =>
    intro b i hi hty hm hprev
    cases i with
    | zero =>
      simp only [List.getElem_cons_zero] at hty hm ⊢
      rw [Nat.add_zero]
      exact apps_scan_cons_match p b w rest hty hm
    | succ i2 =>
      have hskip : apps_scan p b (w :: rest) = apps_scan p (b + 1) rest := by
        refine apps_scan_cons_skip p b w rest (fun hw => ?_)
        have := hprev 0 (Nat.succ_pos _) (Nat.succ_pos _)
        simpa [hw] using this
      have hi2 : i2 < rest.length := Nat.lt_of_succ_lt_succ hi
      have hmain := ih (b + 1) i2 hi2
        (by simpa using hty) (by simpa using hm)
        (fun j hj hlt hjt =>
          by
            have := hprev (j + 1) (Nat.succ_lt_succ hj) (Nat.succ_lt_succ hlt)
            simp only [List.getElem_cons_succ] at this
            exact this hjt)
      rw [hskip, hmain]
      simp only [List.getElem_cons_succ]
      congr 1
      omega

/-- C3: the configured-pattern pass scans application-group targets in
configuration order and stops at the first matching rule: when the rule at
index `i` matches and no earlier application-group rule does, the result of
`get_apps_groups_target_for_pid` is exactly the binding produced by that
earliest matching rule (later rules are never consulted). -/
theorem apps_groups_first_match_wins (ts : List (Target n)) (p : PidStat n)
    (i : Nat) (hi : i < ts.length)
    (hty : ts[i].type = TargetType.app_group)
    (hm : apps_rule_matches ts[i] p = true)
    (hprev : ∀ j (hj : j < ts.length), j < i →
      ts[j].type = TargetType.app_group → apps_rule_matches ts[j] p = false) :
    get_apps_groups_target_for_pid ts p =
      matched_apps_groups_target p ts[i] i := by
  have h := apps_scan_first_match p ts 0 i hi hty hm hprev
  simpa [get_apps_groups_target_for_pid] using h

/-- C3 witness: a concrete scan where the first rule matches. -/
theorem apps_groups_first_match_wins_witness :
    get_apps_groups_target_for_pid [sampleTarget] samplePid =
      matched_apps_groups_target samplePid sampleTarget 0 :=
  apps_groups_first_match_wins [sampleTarget] samplePid 0 (by decide) rfl
    (by decide) (fun j hj hlt => absurd hlt (Nat.not_lt_zero j))

theorem apps_scan_manager (p : PidStat n) (hmgr : p.is_manager = true) :
    ∀ (ts : List (Target n)) (b : Nat), apps_scan p b ts = (none, p) := by
  intro ts
  induction ts with
  | nil => intro b; rfl
  | cons w rest ih =>
    intro b
    rw [apps_scan]
    split_ifs with h1 h2
    · exact ih (b + 1)
    · simp [matched_apps_groups_target, is_process_manager, hmgr]
    · exact ih (b + 1)

/-- C8: a process identified as a process-manager is never matched by a
configured rule (the pass yields no target and leaves the record, hence its
`matched_by_config` flag, untouched); a non-manager process matched by the
earliest applicable rule `w` is marked `matched_by_config = true` and bound
to `w`'s alias target when one is configured, else to `w` itself. -/
theorem manager_never_matched_and_alias_binding (ts : List (Target n))
    (p : PidStat n) :
    (p.is_manager = true → get_apps_groups_target_for_pid ts p = (none, p)) ∧
    (p.is_manager = false →
      ∀ i (hi : i < ts.length),
        ts[i].type = TargetType.app_group →
        apps_rule_matches ts[i] p = true →
        (∀ j (hj : j < ts.length), j < i →
          ts[j].type = TargetType.app_group →
            apps_rule_matches ts[j] p = false) →
        get_apps_groups_target_for_pid ts p =
          (some (match ts[i].target with | some a => a | none => i),
           { p with matched_by_config := true })) := by
  constructor
  · intro h
    exact apps_scan_manager p h ts 0
  · intro hm i hi hty hmt hprev
    have h := apps_scan_first_match p ts 0 i hi hty hmt hprev
    rw [get_apps_groups_target_for_pid, h, matched_apps_groups_target,
      if_neg (by simp [is_process_manager, hm])]
    simp

/-- C8 witness: a concrete manager is unmatched; a concrete non-manager is
bound with `matched_by_config` set. -/
theorem manager_never_matched_and_alias_binding_witness :
    get_apps_groups_target_for_pid [sampleTarget]
        { samplePid with is_manager := true } =
      (none, { samplePid with is_manager := true }) ∧
    get_apps_groups_target_for_pid [sampleTarget] samplePid =
      (some 0, { samplePid with matched_by_config := true }) :=
  ⟨(manager_never_matched_and_alias_binding [sampleTarget]
      { samplePid with is_manager := true }).1 rfl,
   (manager_never_matched_and_alias_binding [sampleTarget] samplePid).2 rfl 0
     (by decide) rfl (by decide)
     (fun j hj hlt => absurd hlt (Nat.not_lt_zero j))⟩

/-! Projections of the aggregation loop. -/

theorem agg_loop_apps_proj (u : Fin n) :
    ∀ (ps : List (PidStat n)) (ag : AggState n),
      (agg_loop u ag ps).1.apps = apps_fold u ag.apps ps := by
  intro ps
  induction ps with
  | nil => intro ag; rfl
  | cons p rest ih =>
    intro ag
    simp only [agg_loop, apps_fold]
    exact ih _

theorem agg_loop_pids_length (u : Fin n) :
    ∀ (ps : List (PidStat n)) (ag : AggState n),
      (agg_loop u ag ps).2.length = ps.length := by
  intro ps
  induction ps with
  | nil => intro ag; rfl
  | cons p rest ih =>
    intro ag
    simp only [agg_loop, List.length_cons]
    rw [ih]

/-- C10: an updated process whose resolved target reference is null has its
contribution dropped (`aggregate_pid_on_target` logs and returns with the
target list unchanged), and the aggregation loop still folds the remaining
processes (the apps registry ends as if the orphan were absent, and every
process of the list is still traversed). -/
theorem null_target_contribution_dropped (u : Fin n) (p : PidStat n)
    (ts : List (Target n)) (ag : AggState n) (rest : List (PidStat n))
    (hu : p.updated = true) (ht : p.target = none) :
    aggregate_pid_on_target u p.target p ts = ts ∧
    (agg_loop u ag (p :: rest)).1.apps = (agg_loop u ag rest).1.apps ∧
    (agg_loop u ag (p :: rest)).2.length = rest.length + 1 := by
  refine ⟨?_, ?_, ?_⟩
  · simp [aggregate_pid_on_target, hu, ht]
  · rw [agg_loop_apps_proj, agg_loop_apps_proj]
    simp only [apps_fold]
    rw [show aggregate_pid_on_target u p.target p ag.apps = ag.apps from by
      simp [aggregate_pid_on_target, hu, ht]]
  · rw [agg_loop_pids_length]
    simp

/-- C10 witness: a concrete orphaned process. -/
theorem null_target_contribution_dropped_witness :
    aggregate_pid_on_target 0 ({ samplePid with target := none } : PidStat 1).target
        { samplePid with target := none } [sampleTarget] = [sampleTarget] ∧
    (agg_loop 0 ⟨[sampleTarget], [], []⟩
        [{ samplePid with target := none }]).1.apps =
      (agg_loop 0 ⟨[sampleTarget], [], []⟩ []).1.apps ∧
    (agg_loop 0 ⟨[sampleTarget], [], []⟩
        [{ samplePid with target := none }]).2.length = 0 + 1 :=
  null_target_contribution_dropped 0 { samplePid with target := none }
    [sampleTarget] ⟨[sampleTarget], [], []⟩ [] rfl rfl

/-! Lemmas about the second pass of target assignment. -/

theorem pass2_step_pids_shape (ps : List (PidStat n)) (ts : List (Target n))
    (k : Nat) :
    (pass2_step ps ts k).1 = ps ∨
    ∃ p t, ps.get? k = some p ∧
      (pass2_step ps ts k).1 = ps.set k { p with target := some t } := by
  cases hg : ps.get? k with
  | none => exact Or.inl (by simp only [pass2_step, hg])
  | some p =>
    cases ht : p.target with
    | some t => exact Or.inl (by simp only [pass2_step, hg, ht])
    | none =>
      cases hinh : pass2_inherit ps p with
      | some t =>
        exact Or.inr ⟨p, t, rfl, by simp only [pass2_step, hg, ht, hinh]⟩
      | none =>
        exact Or.inr ⟨p, (get_tree_target ts p).1, rfl,
          by simp only [pass2_step, hg, ht, hinh]⟩

theorem pass2_step_length (ps : List (PidStat n)) (ts : List (Target n))
    (k : Nat) : (pass2_step ps ts k).1.length = ps.length := by
  rcases pass2_step_pids_shape ps ts k with h | ⟨p, t, _, h⟩
  · rw [h]
  · rw [h, List.length_set]

theorem pass2_step_mono (ps : List (PidStat n)) (ts : List (Target n))
    (k j : Nat) (h : TargAt ps j) : TargAt (pass2_step ps ts k).1 j := by
  rcases pass2_step_pids_shape ps ts k with heq | ⟨p, t, hg, heq⟩
  · rw [heq]; exact h
  · rw [heq]
    intro q hq
    by_cases hkj : k = j
    · subst hkj
      rw [get?_set_self ps k _ (get?_some_lt hg)] at hq
      cases hq
      rfl
    · rw [get?_set_ne ps k j _ hkj] at hq
      exact h q hq

theorem pass2_step_establishes (ps : List (PidStat n)) (ts : List (Target n))
    (k : Nat) (hk : k < ps.length) : TargAt (pass2_step ps ts k).1 k := by
  intro q hq
  cases hg : ps.get? k with
  | none =>
    rw [List.get?_eq_get hk] at hg
    cases hg
  | some p =>
    cases ht : p.target with
    | some t =>
      rw [show (pass2_step ps ts k).1 = ps from by
          simp only [pass2_step, hg, ht],
        hg] at hq
      cases hq
      rw [ht]
      rfl
    | none =>
      cases hinh : pass2_inherit ps p with
      | some t =>
        rw [show (pass2_step ps ts k).1 =
            ps.set k { p with target := some t } from by
              simp only [pass2_step, hg, ht, hinh],
          get?_set_self ps k _ hk] at hq
        cases hq
        rfl
      | none =>
        rw [show (pass2_step ps ts k).1 =
            ps.set k { p with target := some (get_tree_target ts p).1 } from by
              simp only [pass2_step, hg, ht, hinh],
          get?_set_self ps k _ hk] at hq
        cases hq
        rfl

theorem pass2_go_pids_length :
    ∀ (ks : List Nat) (ps : List (PidStat n)) (ts2 : List (Target n)),
      (pass2_go ps ts2 ks).1.length = ps.length := by
  intro ks
  induction ks with
  | nil => intro ps ts2; rfl
  | cons k rest ih =>
    intro ps ts2
    simp only [pass2_go]
    rw [ih, pass2_step_length]

theorem pass2_go_mono :
    ∀ (ks : List Nat) (ps : List (PidStat n)) (ts : List (Target n)) (j : Nat),
      TargAt ps j → TargAt (pass2_go ps ts ks).1 j := by
  intro ks
  induction ks with
  | nil => intro ps ts j h; exact h
  | cons k rest ih =>
    intro ps ts j h
    simp only [pass2_go]
    exact ih _ _ j (pass2_step_mono ps ts k j h)

theorem pass2_go_covers :
    ∀ (ks : List Nat) (ps : List (PidStat n)) (ts : List (Target n)) (j : Nat),
      j ∈ ks → j < ps.length → TargAt (pass2_go ps ts ks).1 j := by
  intro ks
  induction ks with
  | nil => intro ps ts j h; cases h
  | cons k rest ih =>
    intro ps ts j hmem hlt
    simp only [pass2_go]
    rcases List.mem_cons.mp hmem with rfl | hmem2
    · exact pass2_go_mono rest _ _ j (pass2_step_establishes ps ts j hlt)
    · exact ih _ _ j hmem2 (by rw [pass2_step_length]; exact hlt)

/-- C2: classification is total — after `assign_a_target_to_all_processes`
(with the spec-modelled `get_tree_target` always returning a target), every
record in the pid list has a non-null resolved target, so the
`fatal_assert(p->target != NULL)` at the end of the second pass can never
fire. -/
theorem assign_targets_total (st : SysState n) (i : Nat)
    (hi : i < (assign_a_target_to_all_processes st).pids.length) :
    ((assign_a_target_to_all_processes st).pids.get ⟨i, hi⟩).target.isSome
      = true := by
  have hg : (assign_a_target_to_all_processes st).pids.get? i =
      some ((assign_a_target_to_all_processes st).pids.get ⟨i, hi⟩) :=
    List.get?_eq_get hi
  have hlen : (assign_a_target_to_all_processes st).pids.length =
      (assign_pass1 st.apps_groups_root_target st.pids).1.length := by
    simp only [assign_a_target_to_all_processes]
    exact pass2_go_pids_length _ _ _
  have hi2 : i < (assign_pass1 st.apps_groups_root_target st.pids).1.length :=
    hlen ▸ hi
  have hcov := pass2_go_covers
    (List.range (assign_pass1 st.apps_groups_root_target st.pids).1.length)
    (assign_pass1 st.apps_groups_root_target st.pids).1
    st.apps_groups_root_target i (List.mem_range.mpr hi2) hi2
  exact hcov _ hg

/-- C2 witness: the unclassified process of `sampleSys` ends with a
resolved target. -/
theorem assign_targets_total_witness :
    0 < (assign_a_target_to_all_processes sampleSys).pids.length ∧
    ((assign_a_target_to_all_processes sampleSys).pids.get
        ⟨0, by decide⟩).target.isSome = true :=
  ⟨by decide, assign_targets_total sampleSys 0 (by decide)⟩

/-! The parent-chain walk in terms of the first stopping ancestor. -/

theorem walk_go_eq_stop_go (ps : List (PidStat n)) :
    ∀ (fuel j : Nat),
      walk_go ps fuel j =
        match stop_go ps fuel j with
        | some a =>
          if a.is_manager = false ∧ a.matched_by_config = true then a.target
          else none
        | none => none := by
  intro fuel
  induction fuel with
  | zero => intro j; rfl
  | succ fuel ih =>
    intro j
    simp only [walk_go, stop_go]
    cases hg : ps.get? j with
    | none => rfl
    | some pp =>
      cases hm : pp.is_manager with
      | true => simp [hm]
      | false =>
        simp only [hm, Bool.false_eq_true, if_false]
        cases ht : pp.target with
        | some t =>
          cases hc : pp.matched_by_config with
          | true => simp [hc, ht, hm]
          | false => simp [hc, ht, hm]
        | none =>
          cases hp : pp.parent with
          | none => rfl
          | some j2 =>
            by_cases hj : j2 < j
            · simp only [if_pos hj]
              exact ih j2
            · simp [if_neg hj]

theorem walk_parents_eq_first_stop (ps : List (PidStat n)) (j : Nat) :
    walk_parents ps j =
      match first_stop ps j with
      | some a =>
        if a.is_manager = false ∧ a.matched_by_config = true then a.target
        else none
      | none => none :=
  walk_go_eq_stop_go ps (j + 1) j

theorem stop_go_not_manager_target (ps : List (PidStat n)) :
    ∀ (fuel j : Nat) (a : PidStat n), stop_go ps fuel j = some a →
      a.is_manager = false → ∃ t, a.target = some t := by
  intro fuel
  induction fuel with
  | zero => intro j a h; cases h
  | succ fuel ih =>
    intro j a h hm
    rw [stop_go] at h
    revert h
    cases hg : ps.get? j with
    | none => intro h; cases h
    | some pp =>
      cases hmgr : pp.is_manager with
      | true =>
        simp only [hmgr, if_true]
        intro h
        cases h
        rw [hmgr] at hm
        cases hm
      | false =>
        simp only [hmgr, Bool.false_eq_true, if_false]
        cases ht : pp.target with
        | some t =>
          intro h
          cases h
          exact ⟨t, ht⟩
        | none =>
          cases hp : pp.parent with
          | none => intro h; cases h
          | some j2 =>
            by_cases hj : j2 < j
            · simp only [if_pos hj]
              exact fun h => ih j2 a h hm
            · simp only [if_neg hj]
              intro h; cases h

theorem first_stop_not_manager_target (ps : List (PidStat n)) (j : Nat)
    (a : PidStat n) (h : first_stop ps j = some a)
    (hm : a.is_manager = false) : ∃ t, a.target = some t :=
  stop_go_not_manager_target ps (j + 1) j a h hm

/-- C4: in the inheritance pass, a process with no configured match and not
itself a process-manager walks its parent chain up to the first
process-manager ancestor or the first ancestor with a resolved target; it
inherits that ancestor's exact target reference exactly when that ancestor
is a non-manager with `matched_by_config = true`; in every other case
(manager boundary, tree-fallback-only ancestor, no stopping ancestor, no
parent) it receives its own tree-fallback target. -/
theorem inheritance_pass_characterization (ps : List (PidStat n))
    (ts : List (Target n)) (k : Nat) (p : PidStat n)
    (hk : ps.get? k = some p) (ht : p.target = none)
    (hm : p.is_manager = false) :
    (∀ j a, p.parent = some j → first_stop ps j = some a →
      a.is_manager = false → a.matched_by_config = true →
      pass2_step ps ts k = (ps.set k { p with target := a.target }, ts)) ∧
    (∀ j a, p.parent = some j → first_stop ps j = some a →
      (a.is_manager = true ∨ a.matched_by_config = false) →
      pass2_step ps ts k =
        (ps.set k { p with target := some (get_tree_target ts p).1 },
         (get_tree_target ts p).2)) ∧
    (∀ j, p.parent = some j → first_stop ps j = none →
      pass2_step ps ts k =
        (ps.set k { p with target := some (get_tree_target ts p).1 },
         (get_tree_target ts p).2)) ∧
    (p.parent = none →
      pass2_step ps ts k =
        (ps.set k { p with target := some (get_tree_target ts p).1 },
         (get_tree_target ts p).2)) := by
  refine ⟨?_, ?_, ?_, ?_⟩
  · intro j a hp hfs hma hmc
    obtain ⟨t, hat⟩ := first_stop_not_manager_target ps j a hfs hma
    have hw : pass2_inherit ps p = some t := by
      simp [pass2_inherit, hm, hp, walk_parents_eq_first_stop, hfs, hma, hmc,
        hat]
    simp only [pass2_step, hk, ht, hw, hat]
  · intro j a hp hfs hcase
    have hw : pass2_inherit ps p = none := by
      rcases hcase with h | h <;>
        simp [pass2_inherit, hm, hp, walk_parents_eq_first_stop, hfs, h]
    simp only [pass2_step, hk, ht, hw]
  · intro j hp hfs
    have hw : pass2_inherit ps p = none := by
      simp [pass2_inherit, hm, hp, walk_parents_eq_first_stop, hfs]
    simp only [pass2_step, hk, ht, hw]
  · intro hp
    have hw : pass2_inherit ps p = none := by
      simp [pass2_inherit, hm, hp]
    simp only [pass2_step, hk, ht, hw]

/-- C4 witness: the concrete child of a configuration-matched ancestor
inherits that ancestor's exact target reference. -/
theorem inheritance_pass_characterization_witness :
    pass2_step sampleChain [sampleTarget] 1 =
      (sampleChain.set 1 { sampleChild with target := sampleAncestor.target },
       [sampleTarget]) :=
  (inheritance_pass_characterization sampleChain [sampleTarget] 1 sampleChild
    rfl rfl rfl).1 0 sampleAncestor rfl rfl rfl rfl

/-! Entry-level lemmas for the aggregation fold. -/

theorem listUpdate_length (ts : List α) (i : Nat) (f : α → α) :
    (listUpdate ts i f).length = ts.length := by
  unfold listUpdate
  cases hg : ts.get? i with
  | none => rfl
  | some w => exact List.length_set ts i (f w)

theorem get?_listUpdate_self (ts : List α) (i : Nat) (f : α → α) :
    (listUpdate ts i f).get? i = (ts.get? i).map f := by
  unfold listUpdate
  cases hg : ts.get? i with
  | none =>
    show ts.get? i = Option.map f none
    rw [hg]
    rfl
  | some w =>
    exact get?_set_self ts i (f w) (get?_some_lt hg)

theorem get?_listUpdate_ne (ts : List α) (i j : Nat) (f : α → α) (h : i ≠ j) :
    (listUpdate ts i f).get? j = ts.get? j := by
  unfold listUpdate
  cases ts.get? i with
  | none => rfl
  | some w => exact get?_set_ne ts i j (f w) h

theorem aggregate_pid_on_target_length (u : Fin n) (wi : Option Nat)
    (p : PidStat n) (ts : List (Target n)) :
    (aggregate_pid_on_target u wi p ts).length = ts.length := by
  unfold aggregate_pid_on_target
  split_ifs
  · rfl
  · cases wi with
    | none => rfl
    | some i => exact listUpdate_length ts i _

theorem aggregate_pid_on_target_not_updated (u : Fin n) (wi : Option Nat)
    (p : PidStat n) (ts : List (Target n)) (h : p.updated = false) :
    aggregate_pid_on_target u wi p ts = ts := by
  unfold aggregate_pid_on_target
  rw [if_pos h]

theorem aggregate_pid_on_target_get?_ne (u : Fin n) (wi : Option Nat)
    (p : PidStat n) (ts : List (Target n)) (j : Nat) (h : wi ≠ some j) :
    (aggregate_pid_on_target u wi p ts).get? j = ts.get? j := by
  unfold aggregate_pid_on_target
  split_ifs
  · rfl
  · cases wi with
    | none => rfl
    | some i =>
      exact get?_listUpdate_ne ts i j _ (fun he => h (by rw [he]))

theorem aggregate_pid_on_target_get?_self (u : Fin n) (i : Nat)
    (p : PidStat n) (ts : List (Target n)) (hu : p.updated = true) :
    (aggregate_pid_on_target u (some i) p ts).get? i =
      (ts.get? i).map (aggregate_pid_fold u p) := by
  unfold aggregate_pid_on_target
  rw [if_neg (by simp [hu])]
  exact get?_listUpdate_self ts i _

theorem aggregate_pid_fold_values (u : Fin n) (p : PidStat n) (w : Target n)
    (f : Fin n) :
    (aggregate_pid_fold u p w).values f = w.values f + p.values f := rfl

theorem aggregate_pid_fold_uptime_min (u : Fin n) (p : PidStat n)
    (w : Target n) :
    (aggregate_pid_fold u p w).uptime_min =
      if w.uptime_min = 0 ∨ p.values u < w.uptime_min then p.values u
      else w.uptime_min := rfl

theorem aggregate_pid_fold_uptime_max (u : Fin n) (p : PidStat n)
    (w : Target n) :
    (aggregate_pid_fold u p w).uptime_max =
      if w.uptime_max = 0 ∨ w.uptime_max < p.values u then p.values u
      else w.uptime_max := rfl

theorem baseVals_append_mk (ty : TargetType) (v : Nat) :
    ∀ (ts : List (Target n)) (i : Nat) (f : Fin n),
      baseVals (ts ++ [mk_ident_target ty v]) i f = baseVals ts i f := by
  intro ts
  induction ts with
  | nil =>
    intro i f
    cases i with
    | zero => rfl
    | succ i2 => rfl
  | cons w ts2 ih =>
    intro i f
    cases i with
    | zero => rfl
    | succ i2 => exact ih i2 f

theorem UptimeBase_append_mk (ty : TargetType) (v : Nat) :
    ∀ (ts : List (Target n)) (i : Nat) (xs : List Nat),
      UptimeBase ts i xs → UptimeBase (ts ++ [mk_ident_target ty v]) i xs := by
  intro ts
  induction ts with
  | nil =>
    intro i xs h
    cases i with
    | zero =>
      have hx : xs = [] := h
      subst hx
      exact ⟨Or.inl ⟨rfl, rfl⟩, Or.inl ⟨rfl, rfl⟩⟩
    | succ i2 => exact h
  | cons w ts2 ih =>
    intro i xs h
    cases i with
    | zero => exact h
    | succ i2 => exact ih i2 xs h

theorem baseVals_zeroed (ts : List (Target n)) (i : Nat) (f : Fin n) :
    baseVals (zero_all_targets ts).1 i f = 0 := by
  unfold baseVals zero_all_targets
  rw [List.get?_map]
  cases ts.get? i <;> rfl

theorem UptimeBase_zeroed (ts : List (Target n)) (i : Nat) :
    UptimeBase (zero_all_targets ts).1 i [] := by
  unfold UptimeBase zero_all_targets
  rw [List.get?_map]
  cases ts.get? i with
  | none => rfl
  | some w => exact ⟨Or.inl ⟨rfl, rfl⟩, Or.inl ⟨rfl, rfl⟩⟩

theorem find_ident_idx_lt (v : Nat) :
    ∀ (ts : List (Target n)) (i : Nat),
      find_ident_idx v ts = some i → i < ts.length := by
  intro ts
  induction ts with
  | nil => intro i h; cases h
  | cons w rest ih =>
    intro i h
    rw [find_ident_idx] at h
    split_ifs at h with hw
    · cases h
      exact Nat.succ_pos _
    · cases hr : find_ident_idx v rest with
      | none => rw [hr] at h; cases h
      | some i2 =>
        rw [hr] at h
        cases h
        exact Nat.succ_lt_succ (ih i2 hr)

theorem resolve_ident_shape (ty : TargetType) (cur : Option Nat) (v : Nat)
    (ts : List (Target n)) :
    ((resolve_ident_target ty cur v ts).2 = ts ∧
      (resolve_ident_target ty cur v ts).1 < ts.length) ∨
    ((resolve_ident_target ty cur v ts).2 = ts ++ [mk_ident_target ty v] ∧
      (resolve_ident_target ty cur v ts).1 = ts.length) := by
  have hget : ((get_ident_target ty v ts).2 = ts ∧
      (get_ident_target ty v ts).1 < ts.length) ∨
      ((get_ident_target ty v ts).2 = ts ++ [mk_ident_target ty v] ∧
        (get_ident_target ty v ts).1 = ts.length) := by
    unfold get_ident_target
    cases hf : find_ident_idx v ts with
    | some i => exact Or.inl ⟨rfl, find_ident_idx_lt v ts i hf⟩
    | none => exact Or.inr ⟨rfl, rfl⟩
  cases cur with
  | none => exact hget
  | some k =>
    have hred : resolve_ident_target ty (some k) v ts =
        match ts.get? k with
        | some w => if w.ident = v then (k, ts) else get_ident_target ty v ts
        | none => get_ident_target ty v ts := rfl
    rw [hred]
    cases hg : ts.get? k with
    | none => exact hget
    | some w =>
      have hred2 : (match (some w : Option (Target n)) with
          | some w2 => if w2.ident = v then (k, ts) else get_ident_target ty v ts
          | none => get_ident_target ty v ts) =
          if w.ident = v then (k, ts) else get_ident_target ty v ts := rfl
      rw [hred2]
      split_ifs with hw
      · exact Or.inl ⟨rfl, get?_some_lt hg⟩
      · exact hget

theorem memberVals_cons (p : PidStat n) (ps : List (PidStat n))
    (sel : PidStat n → Option Nat) (i : Nat) (f : Fin n) :
    memberVals (p :: ps) sel i f =
      if p.updated && (sel p == some i) then
        p.values f :: memberVals ps sel i f
      else memberVals ps sel i f := by
  simp only [memberVals, List.filter_cons]
  split_ifs with h <;> simp

theorem memberVals_cleanup (sel : PidStat n → Option Nat)
    (hsel : ∀ (p : PidStat n) (x : Nat),
      sel { p with keeploops := x, keep := false } = sel p) :
    ∀ (ps : List (PidStat n)) (i : Nat) (f : Fin n),
      memberVals (cleanup_exited_pids ps) sel i f = memberVals ps sel i f := by
  intro ps
  induction ps with
  | nil => intro i f; rfl
  | cons p rest ih =>
    intro i f
    rw [cleanup_exited_pids]
    by_cases hc : p.updated = false ∧ (p.keep = false ∨ 0 < p.keeploops)
    · rw [if_pos hc, ih, memberVals_cons]
      rw [if_neg (by simp [hc.1])]
    · rw [if_neg hc, memberVals_cons, memberVals_cons]
      rw [hsel, ih]

/-! Lemmas about the sentinel-based running minimum and maximum. -/

theorem MinState_step (m v : Nat) (xs : List Nat) (h : MinState m xs)
    (hv : 0 < v) (hxs : ∀ x ∈ xs, 0 < x) :
    MinState (if m = 0 ∨ v < m then v else m) (v :: xs) := by
  rcases h with ⟨hxe, hm0⟩ | ⟨hmem, hmin⟩
  · subst hxe
    subst hm0
    rw [if_pos (Or.inl rfl)]
    refine Or.inr ⟨List.mem_cons_self v [], ?_⟩
    intro y hy
    rcases List.mem_cons.mp hy with rfl | hy2
    · exact Nat.le_refl y
    · cases hy2
  · have hm0 : m ≠ 0 := fun h0 => Nat.lt_irrefl 0 (h0 ▸ hxs m hmem)
    by_cases hvm : v < m
    · rw [if_pos (Or.inr hvm)]
      refine Or.inr ⟨List.mem_cons_self v xs, ?_⟩
      intro y hy
      rcases List.mem_cons.mp hy with rfl | hy2
      · exact Nat.le_refl y
      · exact Nat.le_of_lt (Nat.lt_of_lt_of_le hvm (hmin y hy2))
    · rw [if_neg (by rintro (h0 | hlt); exact hm0 h0; exact hvm hlt)]
      refine Or.inr ⟨List.mem_cons_of_mem v hmem, ?_⟩
      intro y hy
      rcases List.mem_cons.mp hy with rfl | hy2
      · exact Nat.le_of_not_lt hvm
      · exact hmin y hy2

theorem MaxState_step (m v : Nat) (xs : List Nat) (h : MaxState m xs)
    (hv : 0 < v) (hxs : ∀ x ∈ xs, 0 < x) :
    MaxState (if m = 0 ∨ m < v then v else m) (v :: xs) := by
  rcases h with ⟨hxe, hm0⟩ | ⟨hmem, hmax⟩
  · subst hxe
    subst hm0
    rw [if_pos (Or.inl rfl)]
    refine Or.inr ⟨List.mem_cons_self v [], ?_⟩
    intro y hy
    rcases List.mem_cons.mp hy with rfl | hy2
    · exact Nat.le_refl y
    · cases hy2
  · have hm0 : m ≠ 0 := fun h0 => Nat.lt_irrefl 0 (h0 ▸ hxs m hmem)
    by_cases hvm : m < v
    · rw [if_pos (Or.inr hvm)]
      refine Or.inr ⟨List.mem_cons_self v xs, ?_⟩
      intro y hy
      rcases List.mem_cons.mp hy with rfl | hy2
      · exact Nat.le_refl y
      · exact Nat.le_of_lt (Nat.lt_of_le_of_lt (hmax y hy2) hvm)
    · rw [if_neg (by rintro (h0 | hlt); exact hm0 h0; exact hvm hlt)]
      refine Or.inr ⟨List.mem_cons_of_mem v hmem, ?_⟩
      intro y hy
      rcases List.mem_cons.mp hy with rfl | hy2
      · exact Nat.le_of_not_lt hvm
      · exact hmax y hy2

theorem MinState_congr {m : Nat} {xs ys : List Nat}
    (h : ∀ x, x ∈ xs ↔ x ∈ ys) : MinState m xs → MinState m ys := by
  rintro (⟨hxe, hm⟩ | ⟨hmem, hmin⟩)
  · left
    refine ⟨List.eq_nil_iff_forall_not_mem.mpr (fun x hx => ?_), hm⟩
    rw [hxe] at h
    exact (List.not_mem_nil x) ((h x).mpr hx)
  · right
    exact ⟨(h m).mp hmem, fun y hy => hmin y ((h y).mpr hy)⟩

theorem MaxState_congr {m : Nat} {xs ys : List Nat}
    (h : ∀ x, x ∈ xs ↔ x ∈ ys) : MaxState m xs → MaxState m ys := by
  rintro (⟨hxe, hm⟩ | ⟨hmem, hmax⟩)
  · left
    refine ⟨List.eq_nil_iff_forall_not_mem.mpr (fun x hx => ?_), hm⟩
    rw [hxe] at h
    exact (List.not_mem_nil x) ((h x).mpr hx)
  · right
    exact ⟨(h m).mp hmem, fun y hy => hmax y ((h y).mpr hy)⟩

theorem mem_middle_iff (v : α) (l1 l2 : List α) (x : α) :
    x ∈ l1 ++ v :: l2 ↔ x ∈ (v :: l1) ++ l2 := by
  simp only [List.mem_append, List.mem_cons]
  tauto

/-! The effect of one resolve-and-fold step on one registry entry. -/

theorem baseVals_congr_get? (ts1 ts2 : List (Target n)) (i : Nat) (f : Fin n)
    (h : ts1.get? i = ts2.get? i) : baseVals ts1 i f = baseVals ts2 i f := by
  unfold baseVals
  rw [h]

theorem UptimeBase_congr_get? (ts1 ts2 : List (Target n)) (i : Nat)
    (xs : List Nat) (h : ts1.get? i = ts2.get? i) :
    UptimeBase ts2 i xs → UptimeBase ts1 i xs := by
  unfold UptimeBase
  rw [h]
  exact id

theorem UptimeBase_get?_some {ts : List (Target n)} {i : Nat} {xs : List Nat}
    {w : Target n} (hg : ts.get? i = some w) (h : UptimeBase ts i xs) :
    MinState w.uptime_min xs ∧ MaxState w.uptime_max xs := by
  unfold UptimeBase at h
  rw [hg] at h
  exact h

theorem UptimeBase_get?_none {ts : List (Target n)} {i : Nat} {xs : List Nat}
    (hg : ts.get? i = none) (h : UptimeBase ts i xs) : xs = [] := by
  unfold UptimeBase at h
  rw [hg] at h
  exact h

theorem UptimeBase_of_get?_some (w : Target n) {ts : List (Target n)}
    {i : Nat} {xs : List Nat} (hg : ts.get? i = some w)
    (hmin : MinState w.uptime_min xs) (hmax : MaxState w.uptime_max xs) :
    UptimeBase ts i xs := by
  unfold UptimeBase
  rw [hg]
  exact ⟨hmin, hmax⟩

theorem aggregate_pid_on_target_none (u : Fin n) (p : PidStat n)
    (ts : List (Target n)) : aggregate_pid_on_target u none p ts = ts := by
  unfold aggregate_pid_on_target
  split_ifs <;> rfl

theorem contribSum_cons (p : PidStat n) (ps : List (PidStat n))
    (sel : PidStat n → Option Nat) (i : Nat) (f : Fin n) :
    contribSum (p :: ps) sel i f =
      (if p.updated && (sel p == some i) then p.values f else 0) +
        contribSum ps sel i f := by
  unfold contribSum
  rw [memberVals_cons]
  split_ifs with h
  · rw [List.sum_cons]
  · rw [Nat.zero_add]

theorem ident_step_baseVals (u : Fin n) (ty : TargetType) (cur : Option Nat)
    (v : Nat) (p : PidStat n) (ts : List (Target n)) (i : Nat) (f : Fin n) :
    baseVals
      (aggregate_pid_on_target u (some (resolve_ident_target ty cur v ts).1) p
        (resolve_ident_target ty cur v ts).2) i f =
      baseVals ts i f +
        (if p.updated = true ∧ (resolve_ident_target ty cur v ts).1 = i then
          p.values f
        else 0) := by
  have hbase2 : baseVals (resolve_ident_target ty cur v ts).2 i f =
      baseVals ts i f := by
    rcases resolve_ident_shape ty cur v ts with ⟨heq, -⟩ | ⟨heq, -⟩
    · rw [heq]
    · rw [heq, baseVals_append_mk]
  cases hup : p.updated with
  | false =>
    rw [aggregate_pid_on_target_not_updated u _ p _ hup, hbase2,
      if_neg (by rintro ⟨h1, -⟩; cases h1), Nat.add_zero]
  | true =>
    by_cases hi : (resolve_ident_target ty cur v ts).1 = i
    · subst hi
      rw [if_pos ⟨rfl, rfl⟩]
      unfold baseVals
      rw [aggregate_pid_on_target_get?_self u _ p _ hup]
      rcases resolve_ident_shape ty cur v ts with ⟨heq, hlt⟩ | ⟨heq, hidx⟩
      · rw [heq, List.get?_eq_get hlt]
        rfl
      · rw [heq, hidx, List.get?_concat_length,
          List.get?_eq_none.mpr (Nat.le_refl _)]
        rfl
    · rw [if_neg (by rintro ⟨-, h2⟩; exact hi h2), Nat.add_zero,
        baseVals_congr_get? _ _ i f
          (aggregate_pid_on_target_get?_ne u _ p _ i
            (fun h => hi (Option.some.inj h))),
        hbase2]

theorem ident_step_uptimeBase (u : Fin n) (ty : TargetType) (cur : Option Nat)
    (v : Nat) (p : PidStat n) (ts : List (Target n)) (i : Nat) (xs : List Nat)
    (hbase : UptimeBase ts i xs) (hpv : 0 < p.values u)
    (hxs : ∀ x ∈ xs, 0 < x) :
    UptimeBase
      (aggregate_pid_on_target u (some (resolve_ident_target ty cur v ts).1) p
        (resolve_ident_target ty cur v ts).2) i
      (if p.updated = true ∧ (resolve_ident_target ty cur v ts).1 = i then
        p.values u :: xs
      else xs) := by
  have hbase2 : UptimeBase (resolve_ident_target ty cur v ts).2 i xs := by
    rcases resolve_ident_shape ty cur v ts with ⟨heq, -⟩ | ⟨heq, -⟩
    · rw [heq]; exact hbase
    · rw [heq]; exact UptimeBase_append_mk ty v ts i xs hbase
  cases hup : p.updated with
  | false =>
    rw [aggregate_pid_on_target_not_updated u _ p _ hup,
      if_neg (by rintro ⟨h1, -⟩; cases h1)]
    exact hbase2
  | true =>
    by_cases hi : (resolve_ident_target ty cur v ts).1 = i
    · subst hi
      rw [if_pos ⟨rfl, rfl⟩]
      obtain ⟨w2, hw2g, hw2min, hw2max⟩ : ∃ w2,
          (resolve_ident_target ty cur v ts).2.get?
            (resolve_ident_target ty cur v ts).1 = some w2 ∧
          MinState w2.uptime_min xs ∧ MaxState w2.uptime_max xs := by
        rcases resolve_ident_shape ty cur v ts with ⟨heq, hlt⟩ | ⟨heq, hidx⟩
        · obtain ⟨hmin, hmax⟩ :=
            UptimeBase_get?_some (List.get?_eq_get hlt) hbase
          exact ⟨_, by rw [heq]; exact List.get?_eq_get hlt, hmin, hmax⟩
        · have hxe : xs = [] := UptimeBase_get?_none
            (List.get?_eq_none.mpr (by rw [hidx])) hbase
          subst hxe
          exact ⟨mk_ident_target ty v,
            by rw [heq, hidx]; exact List.get?_concat_length ts _,
            Or.inl ⟨rfl, rfl⟩, Or.inl ⟨rfl, rfl⟩⟩
      refine UptimeBase_of_get?_some (aggregate_pid_fold u p w2) ?_ ?_ ?_
      · rw [aggregate_pid_on_target_get?_self u _ p _ hup, hw2g]
        rfl
      · rw [aggregate_pid_fold_uptime_min]
        exact MinState_step w2.uptime_min (p.values u) xs hw2min hpv hxs
      · rw [aggregate_pid_fold_uptime_max]
        exact MaxState_step w2.uptime_max (p.values u) xs hw2max hpv hxs
    · rw [if_neg (by rintro ⟨-, h2⟩; exact hi h2)]
      exact UptimeBase_congr_get? _ _ i xs
        (aggregate_pid_on_target_get?_ne u _ p _ i
          (fun h => hi (Option.some.inj h))) hbase2

theorem apps_step_baseVals (u : Fin n) (p : PidStat n) (ts : List (Target n))
    (i : Nat) (f : Fin n) (hi : i < ts.length) :
    baseVals (aggregate_pid_on_target u p.target p ts) i f =
      baseVals ts i f +
        (if p.updated = true ∧ p.target = some i then p.values f else 0) := by
  cases hup : p.updated with
  | false =>
    rw [aggregate_pid_on_target_not_updated u _ p _ hup,
      if_neg (by rintro ⟨h1, -⟩; cases h1), Nat.add_zero]
  | true =>
    cases htg : p.target with
    | none =>
      rw [aggregate_pid_on_target_none,
        if_neg (by rintro ⟨-, h2⟩; cases h2), Nat.add_zero]
    | some i0 =>
      by_cases hii : i0 = i
      · subst hii
        rw [if_pos ⟨rfl, rfl⟩]
        unfold baseVals
        rw [aggregate_pid_on_target_get?_self u i0 p ts hup,
          List.get?_eq_get hi]
        rfl
      · rw [if_neg (by rintro ⟨-, h2⟩; exact hii (Option.some.inj h2)),
          Nat.add_zero]
        exact baseVals_congr_get? _ _ i f
          (aggregate_pid_on_target_get?_ne u _ p ts i
            (fun h => hii (Option.some.inj h)))

theorem apps_step_uptimeBase (u : Fin n) (p : PidStat n) (ts : List (Target n))
    (i : Nat) (xs : List Nat) (hi : i < ts.length)
    (hbase : UptimeBase ts i xs) (hpv : 0 < p.values u)
    (hxs : ∀ x ∈ xs, 0 < x) :
    UptimeBase (aggregate_pid_on_target u p.target p ts) i
      (if p.updated = true ∧ p.target = some i then p.values u :: xs
      else xs) := by
  cases hup : p.updated with
  | false =>
    rw [aggregate_pid_on_target_not_updated u _ p _ hup,
      if_neg (by rintro ⟨h1, -⟩; cases h1)]
    exact hbase
  | true =>
    cases htg : p.target with
    | none =>
      rw [aggregate_pid_on_target_none,
        if_neg (by rintro ⟨-, h2⟩; cases h2)]
      exact hbase
    | some i0 =>
      by_cases hii : i0 = i
      · subst hii
        rw [if_pos ⟨rfl, rfl⟩]
        obtain ⟨hmin, hmax⟩ :=
          UptimeBase_get?_some (List.get?_eq_get hi) hbase
        refine UptimeBase_of_get?_some
          (aggregate_pid_fold u p (ts.get ⟨i0, hi⟩)) ?_ ?_ ?_
        · rw [aggregate_pid_on_target_get?_self u i0 p ts hup,
            List.get?_eq_get hi]
          rfl
        · rw [aggregate_pid_fold_uptime_min]
          exact MinState_step _ (p.values u) xs hmin hpv hxs
        · rw [aggregate_pid_fold_uptime_max]
          exact MaxState_step _ (p.values u) xs hmax hpv hxs
      · rw [if_neg (by rintro ⟨-, h2⟩; exact hii (Option.some.inj h2))]
        exact UptimeBase_congr_get? _ _ i xs
          (aggregate_pid_on_target_get?_ne u _ p ts i
            (fun h => hii (Option.some.inj h))) hbase

/-! Projections of `aggregate_one`. -/

theorem aggregate_one_apps (u : Fin n) (ag : AggState n) (p : PidStat n) :
    (aggregate_one u ag p).1.apps =
      aggregate_pid_on_target u p.target p ag.apps := rfl

theorem aggregate_one_uids (u : Fin n) (ag : AggState n) (p : PidStat n) :
    (aggregate_one u ag p).1.uids =
      aggregate_pid_on_target u
        (some (resolve_ident_target TargetType.uid p.uid_target p.uid
          ag.uids).1) p
        (resolve_ident_target TargetType.uid p.uid_target p.uid ag.uids).2 :=
  rfl

theorem aggregate_one_gids (u : Fin n) (ag : AggState n) (p : PidStat n) :
    (aggregate_one u ag p).1.gids =
      aggregate_pid_on_target u
        (some (resolve_ident_target TargetType.gid p.gid_target p.gid
          ag.gids).1) p
        (resolve_ident_target TargetType.gid p.gid_target p.gid ag.gids).2 :=
  rfl

theorem aggregate_one_pid_updated (u : Fin n) (ag : AggState n)
    (p : PidStat n) : (aggregate_one u ag p).2.updated = p.updated := rfl

theorem aggregate_one_pid_values (u : Fin n) (ag : AggState n)
    (p : PidStat n) : (aggregate_one u ag p).2.values = p.values := rfl

theorem aggregate_one_pid_target (u : Fin n) (ag : AggState n)
    (p : PidStat n) : (aggregate_one u ag p).2.target = p.target := rfl

theorem aggregate_one_pid_uid_target (u : Fin n) (ag : AggState n)
    (p : PidStat n) :
    (aggregate_one u ag p).2.uid_target =
      some (resolve_ident_target TargetType.uid p.uid_target p.uid
        ag.uids).1 := rfl

theorem aggregate_one_pid_gid_target (u : Fin n) (ag : AggState n)
    (p : PidStat n) :
    (aggregate_one u ag p).2.gid_target =
      some (resolve_ident_target TargetType.gid p.gid_target p.gid
        ag.gids).1 := rfl

/-! The aggregation loop, registry by registry: each entry of the final
registry is its zero-or-previous base plus exactly the contributions of the
updated processes resolved to it, and its uptime min/max track the
contributed uptimes. -/

theorem agg_loop_uids_spec (u : Fin n) :
    ∀ (ps : List (PidStat n)) (ag : AggState n),
      ag.uids.length ≤ (agg_loop u ag ps).1.uids.length ∧
      (∀ (i : Nat) (w : Target n),
        (agg_loop u ag ps).1.uids.get? i = some w →
        (∀ f, w.values f =
          baseVals ag.uids i f +
            contribSum (agg_loop u ag ps).2 PidStat.uid_target i f) ∧
        (∀ xs, UptimeBase ag.uids i xs →
          (∀ q ∈ ps, 0 < q.values u) → (∀ x ∈ xs, 0 < x) →
          MinState w.uptime_min
            (memberVals (agg_loop u ag ps).2 PidStat.uid_target i u ++ xs) ∧
          MaxState w.uptime_max
            (memberVals (agg_loop u ag ps).2 PidStat.uid_target i u ++ xs))) := by
  intro ps
  induction ps with
  | nil =>
    intro ag
    simp only [agg_loop]
    refine ⟨Nat.le_refl _, ?_⟩
    intro i w hg
    constructor
    · intro f
      simp only [contribSum, memberVals, List.filter_nil, List.map_nil,
        List.sum_nil, Nat.add_zero, baseVals]
      rw [hg]
    · intro xs hb hpos hxs
      obtain ⟨hmin, hmax⟩ := UptimeBase_get?_some hg hb
      constructor
      · simpa [memberVals] using hmin
      · simpa [memberVals] using hmax
  | cons p rest ih =>
    intro ag
    simp only [agg_loop]
    obtain ⟨ihlen, ihmain⟩ := ih (aggregate_one u ag p).1
    constructor
    · refine Nat.le_trans ?_ ihlen
      rw [aggregate_one_uids, aggregate_pid_on_target_length]
      rcases resolve_ident_shape TargetType.uid p.uid_target p.uid ag.uids
        with ⟨heq, -⟩ | ⟨heq, -⟩
      · rw [heq]
      · rw [heq, List.length_append]
        exact Nat.le_add_right _ _
    · intro i w hg
      obtain ⟨ihv, ihm⟩ := ihmain i w hg
      have hcondeq : ((aggregate_one u ag p).2.updated &&
          ((aggregate_one u ag p).2.uid_target == some i)) = true ↔
          (p.updated = true ∧
            (resolve_ident_target TargetType.uid p.uid_target p.uid
              ag.uids).1 = i) := by
        rw [aggregate_one_pid_updated, aggregate_one_pid_uid_target]
        simp [Bool.and_eq_true]
      constructor
      · intro f
        have hstep := ident_step_baseVals u TargetType.uid p.uid_target p.uid
          p ag.uids i f
        have hif : (if (aggregate_one u ag p).2.updated &&
              ((aggregate_one u ag p).2.uid_target == some i) then
            (aggregate_one u ag p).2.values f else 0) =
            (if p.updated = true ∧
              (resolve_ident_target TargetType.uid p.uid_target p.uid
                ag.uids).1 = i then p.values f else 0) := by
          by_cases hcond : p.updated = true ∧
              (resolve_ident_target TargetType.uid p.uid_target p.uid
                ag.uids).1 = i
          · rw [if_pos (hcondeq.mpr hcond), if_pos hcond,
              aggregate_one_pid_values]
          · rw [if_neg (fun hb => hcond (hcondeq.mp hb)), if_neg hcond]
        rw [contribSum_cons, hif, ← Nat.add_assoc, ← hstep,
          ← aggregate_one_uids]
        exact ihv f
      · intro xs hbase hpos hxs
        have hpv : 0 < p.values u := hpos p (List.mem_cons_self p rest)
        have hposr : ∀ q ∈ rest, 0 < q.values u :=
          fun q hq => hpos q (List.mem_cons_of_mem p hq)
        have hstep := ident_step_uptimeBase u TargetType.uid p.uid_target
          p.uid p ag.uids i xs hbase hpv hxs
        rw [← aggregate_one_uids] at hstep
        have hxs1 : ∀ x ∈ (if p.updated = true ∧
            (resolve_ident_target TargetType.uid p.uid_target p.uid
              ag.uids).1 = i then p.values u :: xs else xs), 0 < x := by
          split_ifs
          · intro x hx
            rcases List.mem_cons.mp hx with rfl | hx2
            · exact hpv
            · exact hxs x hx2
          · exact hxs
        obtain ⟨hmin, hmax⟩ := ihm _ hstep hposr hxs1
        rw [memberVals_cons]
        by_cases hcond : p.updated = true ∧
            (resolve_ident_target TargetType.uid p.uid_target p.uid
              ag.uids).1 = i
        · rw [if_pos (hcondeq.mpr hcond)]
          rw [if_pos hcond] at hmin hmax
          rw [aggregate_one_pid_values]
          constructor
          · exact MinState_congr (mem_middle_iff (p.values u) _ xs) hmin
          · exact MaxState_congr (mem_middle_iff (p.values u) _ xs) hmax
        · rw [if_neg (fun hb => hcond (hcondeq.mp hb))]
          rw [if_neg hcond] at hmin hmax
          exact ⟨hmin, hmax⟩

theorem agg_loop_gids_spec (u : Fin n) :
    ∀ (ps : List (PidStat n)) (ag : AggState n),
      ag.gids.length ≤ (agg_loop u ag ps).1.gids.length ∧
      (∀ (i : Nat) (w : Target n),
        (agg_loop u ag ps).1.gids.get? i = some w →
        (∀ f, w.values f =
          baseVals ag.gids i f +
            contribSum (agg_loop u ag ps).2 PidStat.gid_target i f) ∧
        (∀ xs, UptimeBase ag.gids i xs →
          (∀ q ∈ ps, 0 < q.values u) → (∀ x ∈ xs, 0 < x) →
          MinState w.uptime_min
            (memberVals (agg_loop u ag ps).2 PidStat.gid_target i u ++ xs) ∧
          MaxState w.uptime_max
            (memberVals (agg_loop u ag ps).2 PidStat.gid_target i u ++ xs))) := by
  intro ps
  induction ps with
  | nil =>
    intro ag
    simp only [agg_loop]
    refine ⟨Nat.le_refl _, ?_⟩
    intro i w hg
    constructor
    · intro f
      simp only [contribSum, memberVals, List.filter_nil, List.map_nil,
        List.sum_nil, Nat.add_zero, baseVals]
      rw [hg]
    · intro xs hb hpos hxs
      obtain ⟨hmin, hmax⟩ := UptimeBase_get?_some hg hb
      constructor
      · simpa [memberVals] using hmin
      · simpa [memberVals] using hmax
  | cons p rest ih =>
    intro ag
    simp only [agg_loop]
    obtain ⟨ihlen, ihmain⟩ := ih (aggregate_one u ag p).1
    constructor
    · refine Nat.le_trans ?_ ihlen
      rw [aggregate_one_gids, aggregate_pid_on_target_length]
      rcases resolve_ident_shape TargetType.gid p.gid_target p.gid ag.gids
        with ⟨heq, -⟩ | ⟨heq, -⟩
      · rw [heq]
      · rw [heq, List.length_append]
        exact Nat.le_add_right _ _
    · intro i w hg
      obtain ⟨ihv, ihm⟩ := ihmain i w hg
      have hcondeq : ((aggregate_one u ag p).2.updated &&
          ((aggregate_one u ag p).2.gid_target == some i)) = true ↔
          (p.updated = true ∧
            (resolve_ident_target TargetType.gid p.gid_target p.gid
              ag.gids).1 = i) := by
        rw [aggregate_one_pid_updated, aggregate_one_pid_gid_target]
        simp [Bool.and_eq_true]
      constructor
      · intro f
        have hstep := ident_step_baseVals u TargetType.gid p.gid_target p.gid
          p ag.gids i f
        have hif : (if (aggregate_one u ag p).2.updated &&
              ((aggregate_one u ag p).2.gid_target == some i) then
            (aggregate_one u ag p).2.values f else 0) =
            (if p.updated = true ∧
              (resolve_ident_target TargetType.gid p.gid_target p.gid
                ag.gids).1 = i then p.values f else 0) := by
          by_cases hcond : p.updated = true ∧
              (resolve_ident_target TargetType.gid p.gid_target p.gid
                ag.gids).1 = i
          · rw [if_pos (hcondeq.mpr hcond), if_pos hcond,
              aggregate_one_pid_values]
          · rw [if_neg (fun hb => hcond (hcondeq.mp hb)), if_neg hcond]
        rw [contribSum_cons, hif, ← Nat.add_assoc, ← hstep,
          ← aggregate_one_gids]
        exact ihv f
      · intro xs hbase hpos hxs
        have hpv : 0 < p.values u := hpos p (List.mem_cons_self p rest)
        have hposr : ∀ q ∈ rest, 0 < q.values u :=
          fun q hq => hpos q (List.mem_cons_of_mem p hq)
        have hstep := ident_step_uptimeBase u TargetType.gid p.gid_target
          p.gid p ag.gids i xs hbase hpv hxs
        rw [← aggregate_one_gids] at hstep
        have hxs1 : ∀ x ∈ (if p.updated = true ∧
            (resolve_ident_target TargetType.gid p.gid_target p.gid
              ag.gids).1 = i then p.values u :: xs else xs), 0 < x := by
          split_ifs
          · intro x hx
            rcases List.mem_cons.mp hx with rfl | hx2
            · exact hpv
            · exact hxs x hx2
          · exact hxs
        obtain ⟨hmin, hmax⟩ := ihm _ hstep hposr hxs1
        rw [memberVals_cons]
        by_cases hcond : p.updated = true ∧
            (resolve_ident_target TargetType.gid p.gid_target p.gid
              ag.gids).1 = i
        · rw [if_pos (hcondeq.mpr hcond)]
          rw [if_pos hcond] at hmin hmax
          rw [aggregate_one_pid_values]
          constructor
          · exact MinState_congr (mem_middle_iff (p.values u) _ xs) hmin
          · exact MaxState_congr (mem_middle_iff (p.values u) _ xs) hmax
        · rw [if_neg (fun hb => hcond (hcondeq.mp hb))]
          rw [if_neg hcond] at hmin hmax
          exact ⟨hmin, hmax⟩

theorem agg_loop_apps_length (u : Fin n) :
    ∀ (ps : List (PidStat n)) (ag : AggState n),
      (agg_loop u ag ps).1.apps.length = ag.apps.length := by
  intro ps
  induction ps with
  | nil => intro ag; rfl
  | cons p rest ih =>
    intro ag
    simp only [agg_loop]
    rw [ih, aggregate_one_apps, aggregate_pid_on_target_length]

theorem agg_loop_apps_spec (u : Fin n) :
    ∀ (ps : List (PidStat n)) (ag : AggState n),
      ∀ (i : Nat) (w : Target n),
        (agg_loop u ag ps).1.apps.get? i = some w →
        (∀ f, w.values f =
          baseVals ag.apps i f +
            contribSum (agg_loop u ag ps).2 PidStat.target i f) ∧
        (∀ xs, UptimeBase ag.apps i xs →
          (∀ q ∈ ps, 0 < q.values u) → (∀ x ∈ xs, 0 < x) →
          MinState w.uptime_min
            (memberVals (agg_loop u ag ps).2 PidStat.target i u ++ xs) ∧
          MaxState w.uptime_max
            (memberVals (agg_loop u ag ps).2 PidStat.target i u ++ xs)) := by
  intro ps
  induction ps with
  | nil =>
    intro ag
    simp only [agg_loop]
    intro i w hg
    constructor
    · intro f
      simp only [contribSum, memberVals, List.filter_nil, List.map_nil,
        List.sum_nil, Nat.add_zero, baseVals]
      rw [hg]
    · intro xs hb hpos hxs
      obtain ⟨hmin, hmax⟩ := UptimeBase_get?_some hg hb
      constructor
      · simpa [memberVals] using hmin
      · simpa [memberVals] using hmax
  | cons p rest ih =>
    intro ag
    simp only [agg_loop]
    intro i w hg
    have hilt : i < ag.apps.length := by
      have h1 := get?_some_lt hg
      rw [agg_loop_apps_length, aggregate_one_apps,
        aggregate_pid_on_target_length] at h1
      exact h1
    obtain ⟨ihv, ihm⟩ := ih (aggregate_one u ag p).1 i w hg
    have hcondeq : ((aggregate_one u ag p).2.updated &&
        ((aggregate_one u ag p).2.target == some i)) = true ↔
        (p.updated = true ∧ p.target = some i) := by
      rw [aggregate_one_pid_updated, aggregate_one_pid_target]
      simp [Bool.and_eq_true]
    constructor
    · intro f
      have hstep := apps_step_baseVals u p ag.apps i f hilt
      have hif : (if (aggregate_one u ag p).2.updated &&
            ((aggregate_one u ag p).2.target == some i) then
          (aggregate_one u ag p).2.values f else 0) =
          (if p.updated = true ∧ p.target = some i then p.values f
          else 0) := by
        by_cases hcond : p.updated = true ∧ p.target = some i
        · rw [if_pos (hcondeq.mpr hcond), if_pos hcond,
            aggregate_one_pid_values]
        · rw [if_neg (fun hb => hcond (hcondeq.mp hb)), if_neg hcond]
      rw [contribSum_cons, hif, ← Nat.add_assoc, ← hstep,
        ← aggregate_one_apps]
      exact ihv f
    · intro xs hbase hpos hxs
      have hpv : 0 < p.values u := hpos p (List.mem_cons_self p rest)
      have hposr : ∀ q ∈ rest, 0 < q.values u :=
        fun q hq => hpos q (List.mem_cons_of_mem p hq)
      have hstep := apps_step_uptimeBase u p ag.apps i xs hilt hbase hpv hxs
      rw [← aggregate_one_apps] at hstep
      have hxs1 : ∀ x ∈ (if p.updated = true ∧ p.target = some i then
          p.values u :: xs else xs), 0 < x := by
        split_ifs
        · intro x hx
          rcases List.mem_cons.mp hx with rfl | hx2
          · exact hpv
          · exact hxs x hx2
        · exact hxs
      obtain ⟨hmin, hmax⟩ := ihm _ hstep hposr hxs1
      rw [memberVals_cons]
      by_cases hcond : p.updated = true ∧ p.target = some i
      · rw [if_pos (hcondeq.mpr hcond)]
        rw [if_pos hcond] at hmin hmax
        rw [aggregate_one_pid_values]
        exact ⟨MinState_congr (mem_middle_iff (p.values u) _ xs) hmin,
          MaxState_congr (mem_middle_iff (p.values u) _ xs) hmax⟩
      · rw [if_neg (fun hb => hcond (hcondeq.mp hb))]
        rw [if_neg hcond] at hmin hmax
        exact ⟨hmin, hmax⟩

/-! Projections of the full cycle and preservation lemmas. -/

theorem aggregate_cycle_apps (u : Fin n) (st : SysState n) :
    (aggregate_processes_to_targets u st).apps_groups_root_target =
      (agg_loop u
        ⟨(zero_all_targets
            (assign_a_target_to_all_processes st).apps_groups_root_target).1,
          (zero_all_targets
            (assign_a_target_to_all_processes st).users_root_target).1,
          (zero_all_targets
            (assign_a_target_to_all_processes st).groups_root_target).1⟩
        (assign_a_target_to_all_processes st).pids).1.apps := rfl

theorem aggregate_cycle_uids (u : Fin n) (st : SysState n) :
    (aggregate_processes_to_targets u st).users_root_target =
      (agg_loop u
        ⟨(zero_all_targets
            (assign_a_target_to_all_processes st).apps_groups_root_target).1,
          (zero_all_targets
            (assign_a_target_to_all_processes st).users_root_target).1,
          (zero_all_targets
            (assign_a_target_to_all_processes st).groups_root_target).1⟩
        (assign_a_target_to_all_processes st).pids).1.uids := rfl

theorem aggregate_cycle_gids (u : Fin n) (st : SysState n) :
    (aggregate_processes_to_targets u st).groups_root_target =
      (agg_loop u
        ⟨(zero_all_targets
            (assign_a_target_to_all_processes st).apps_groups_root_target).1,
          (zero_all_targets
            (assign_a_target_to_all_processes st).users_root_target).1,
          (zero_all_targets
            (assign_a_target_to_all_processes st).groups_root_target).1⟩
        (assign_a_target_to_all_processes st).pids).1.gids := rfl

theorem aggregate_cycle_pids (u : Fin n) (st : SysState n) :
    (aggregate_processes_to_targets u st).pids =
      cleanup_exited_pids
        ((agg_loop u
          ⟨(zero_all_targets
              (assign_a_target_to_all_processes st).apps_groups_root_target).1,
            (zero_all_targets
              (assign_a_target_to_all_processes st).users_root_target).1,
            (zero_all_targets
              (assign_a_target_to_all_processes st).groups_root_target).1⟩
          (assign_a_target_to_all_processes st).pids).2) := rfl

theorem contribSum_cleanup (sel : PidStat n → Option Nat)
    (hsel : ∀ (p : PidStat n) (x : Nat),
      sel { p with keeploops := x, keep := false } = sel p)
    (ps : List (PidStat n)) (i : Nat) (f : Fin n) :
    contribSum (cleanup_exited_pids ps) sel i f = contribSum ps sel i f := by
  unfold contribSum
  rw [memberVals_cleanup sel hsel]

theorem MinState_to_IsMinOf {m : Nat} {xs : List Nat} (h : MinState m xs)
    (hne : xs ≠ []) : IsMinOf m xs := by
  rcases h with ⟨he, -⟩ | h2
  · exact absurd he hne
  · exact h2

theorem MaxState_to_IsMaxOf {m : Nat} {xs : List Nat} (h : MaxState m xs)
    (hne : xs ≠ []) : IsMaxOf m xs := by
  rcases h with ⟨he, -⟩ | h2
  · exact absurd he hne
  · exact h2

theorem apps_scan_pid_shape (p : PidStat n) :
    ∀ (ts : List (Target n)) (b : Nat),
      (apps_scan p b ts).2 = p ∨
      (apps_scan p b ts).2 = { p with matched_by_config := true } := by
  intro ts
  induction ts with
  | nil => intro b; exact Or.inl rfl
  | cons w rest ih =>
    intro b
    rw [apps_scan]
    split_ifs with h1 h2
    · exact ih (b + 1)
    · unfold matched_apps_groups_target
      split_ifs with h3
      · exact Or.inl rfl
      · exact Or.inr rfl
    · exact ih (b + 1)

theorem apps_scan_pid_values (p : PidStat n) (ts : List (Target n)) (b : Nat) :
    (apps_scan p b ts).2.values = p.values := by
  rcases apps_scan_pid_shape p ts b with h | h <;> rw [h]

theorem assign_pass1_pos (u : Fin n) (ts : List (Target n)) :
    ∀ (ps : List (PidStat n)), (∀ q ∈ ps, 0 < q.values u) →
      ∀ q ∈ (assign_pass1 ts ps).1, 0 < q.values u := by
  intro ps
  induction ps with
  | nil => intro h q hq; cases hq
  | cons p rest ih =>
    intro h q hq
    have hp := h p (List.mem_cons_self p rest)
    have hrest := fun q2 hq2 => h q2 (List.mem_cons_of_mem p hq2)
    revert hq
    simp only [assign_pass1]
    cases ht : p.target with
    | some t =>
      intro hq
      rcases List.mem_cons.mp hq with rfl | hq2
      · exact hp
      · exact ih hrest q hq2
    | none =>
      intro hq
      rcases List.mem_cons.mp hq with rfl | hq2
      · show 0 < (get_apps_groups_target_for_pid ts p).2.values u
        rw [get_apps_groups_target_for_pid, apps_scan_pid_values]
        exact hp
      · exact ih hrest q hq2

theorem pass2_step_pos (u : Fin n) (ps : List (PidStat n))
    (ts : List (Target n)) (k : Nat) (h : ∀ q ∈ ps, 0 < q.values u) :
    ∀ q ∈ (pass2_step ps ts k).1, 0 < q.values u := by
  rcases pass2_step_pids_shape ps ts k with heq | ⟨p, t, hg, heq⟩
  · rw [heq]; exact h
  · rw [heq]
    intro q hq
    rcases List.mem_or_eq_of_mem_set hq with hq2 | rfl
    · exact h q hq2
    · exact h p (List.get?_mem hg)

theorem pass2_go_pos (u : Fin n) :
    ∀ (ks : List Nat) (ps : List (PidStat n)) (ts : List (Target n)),
      (∀ q ∈ ps, 0 < q.values u) →
      ∀ q ∈ (pass2_go ps ts ks).1, 0 < q.values u := by
  intro ks
  induction ks with
  | nil => intro ps ts h; exact h
  | cons k rest ih =>
    intro ps ts h
    simp only [pass2_go]
    exact ih _ _ (pass2_step_pos u ps ts k h)

theorem assign_preserves_pos (u : Fin n) (st : SysState n)
    (h : ∀ q ∈ st.pids, 0 < q.values u) :
    ∀ q ∈ (assign_a_target_to_all_processes st).pids, 0 < q.values u := by
  simp only [assign_a_target_to_all_processes]
  exact pass2_go_pos u _ _ _ (assign_pass1_pos u _ st.pids h)

/-- C1: after `aggregate_processes_to_targets`, every application-group,
user and group target holds, component-wise, exactly the sum of the metric
values of the processes resolved to it with `updated = true`; every
accumulator is zeroed before the fold, and a process with
`updated = false` contributes nothing to any target. -/
theorem aggregate_cycle_values_are_member_sums (u : Fin n) (st : SysState n)
    (i : Nat) (f : Fin n) :
    (∀ w, (aggregate_processes_to_targets u st).apps_groups_root_target.get? i
        = some w →
      w.values f = contribSum (aggregate_processes_to_targets u st).pids
        PidStat.target i f) ∧
    (∀ w, (aggregate_processes_to_targets u st).users_root_target.get? i
        = some w →
      w.values f = contribSum (aggregate_processes_to_targets u st).pids
        PidStat.uid_target i f) ∧
    (∀ w, (aggregate_processes_to_targets u st).groups_root_target.get? i
        = some w →
      w.values f = contribSum (aggregate_processes_to_targets u st).pids
        PidStat.gid_target i f) := by
  refine ⟨?_, ?_, ?_⟩
  · intro w hg
    rw [aggregate_cycle_apps] at hg
    have h := (agg_loop_apps_spec u
      (assign_a_target_to_all_processes st).pids _ i w hg).1 f
    rw [baseVals_zeroed, Nat.zero_add] at h
    rw [aggregate_cycle_pids, contribSum_cleanup PidStat.target
      (fun p x => rfl)]
    exact h
  · intro w hg
    rw [aggregate_cycle_uids] at hg
    have h := ((agg_loop_uids_spec u
      (assign_a_target_to_all_processes st).pids _).2 i w hg).1 f
    rw [baseVals_zeroed, Nat.zero_add] at h
    rw [aggregate_cycle_pids, contribSum_cleanup PidStat.uid_target
      (fun p x => rfl)]
    exact h
  · intro w hg
    rw [aggregate_cycle_gids] at hg
    have h := ((agg_loop_gids_spec u
      (assign_a_target_to_all_processes st).pids _).2 i w hg).1 f
    rw [baseVals_zeroed, Nat.zero_add] at h
    rw [aggregate_cycle_pids, contribSum_cleanup PidStat.gid_target
      (fun p x => rfl)]
    exact h

/-- C1 witness: the concrete two-member cycle sums 5 + 3 into target 0 of
every kind. -/
theorem aggregate_cycle_values_are_member_sums_witness :
    (0 < (aggregate_processes_to_targets 0 sampleAggSys).apps_groups_root_target.length ∧
      (List.get
          (aggregate_processes_to_targets 0 sampleAggSys).apps_groups_root_target
          ⟨0, by decide⟩).values 0 =
        contribSum (aggregate_processes_to_targets 0 sampleAggSys).pids
          PidStat.target 0 0) ∧
    (0 < (aggregate_processes_to_targets 0 sampleAggSys).users_root_target.length ∧
      (List.get
          (aggregate_processes_to_targets 0 sampleAggSys).users_root_target
          ⟨0, by decide⟩).values 0 =
        contribSum (aggregate_processes_to_targets 0 sampleAggSys).pids
          PidStat.uid_target 0 0) :=
  ⟨⟨by decide,
    (aggregate_cycle_values_are_member_sums 0 sampleAggSys 0 0).1 _
      (List.get?_eq_get (by decide))⟩,
   ⟨by decide,
    (aggregate_cycle_values_are_member_sums 0 sampleAggSys 0 0).2.1 _
      (List.get?_eq_get (by decide))⟩⟩

/-- C7 (amended): after a cycle, for every target of any kind with at least
one updated member, and provided the uptime values of the cycle's processes
are all nonzero (0 is the code's "unset" sentinel for the running min/max),
`uptime_min` equals the minimum and `uptime_max` the maximum of the
members' uptime values. -/
theorem aggregate_cycle_uptime_minmax (u : Fin n) (st : SysState n)
    (hpos : ∀ q ∈ st.pids, 0 < q.values u) (i : Nat) :
    (∀ w, (aggregate_processes_to_targets u st).apps_groups_root_target.get? i
        = some w →
      memberVals (aggregate_processes_to_targets u st).pids PidStat.target i u
        ≠ [] →
      IsMinOf w.uptime_min (memberVals
        (aggregate_processes_to_targets u st).pids PidStat.target i u) ∧
      IsMaxOf w.uptime_max (memberVals
        (aggregate_processes_to_targets u st).pids PidStat.target i u)) ∧
    (∀ w, (aggregate_processes_to_targets u st).users_root_target.get? i
        = some w →
      memberVals (aggregate_processes_to_targets u st).pids
        PidStat.uid_target i u ≠ [] →
      IsMinOf w.uptime_min (memberVals
        (aggregate_processes_to_targets u st).pids PidStat.uid_target i u) ∧
      IsMaxOf w.uptime_max (memberVals
        (aggregate_processes_to_targets u st).pids PidStat.uid_target i u)) ∧
    (∀ w, (aggregate_processes_to_targets u st).groups_root_target.get? i
        = some w →
      memberVals (aggregate_processes_to_targets u st).pids
        PidStat.gid_target i u ≠ [] →
      IsMinOf w.uptime_min (memberVals
        (aggregate_processes_to_targets u st).pids PidStat.gid_target i u) ∧
      IsMaxOf w.uptime_max (memberVals
        (aggregate_processes_to_targets u st).pids PidStat.gid_target i u)) := by
  have hpos2 := assign_preserves_pos u st hpos
  refine ⟨?_, ?_, ?_⟩
  · intro w hg hne
    rw [aggregate_cycle_apps] at hg
    have h := (agg_loop_apps_spec u
      (assign_a_target_to_all_processes st).pids _ i w hg).2 []
      (UptimeBase_zeroed _ i) hpos2 (fun x hx => absurd hx (List.not_mem_nil x))
    rw [List.append_nil] at h
    rw [aggregate_cycle_pids,
      memberVals_cleanup PidStat.target (fun p x => rfl)] at hne ⊢
    exact ⟨MinState_to_IsMinOf h.1 hne, MaxState_to_IsMaxOf h.2 hne⟩
  · intro w hg hne
    rw [aggregate_cycle_uids] at hg
    have h := ((agg_loop_uids_spec u
      (assign_a_target_to_all_processes st).pids _).2 i w hg).2 []
      (UptimeBase_zeroed _ i) hpos2 (fun x hx => absurd hx (List.not_mem_nil x))
    rw [List.append_nil] at h
    rw [aggregate_cycle_pids,
      memberVals_cleanup PidStat.uid_target (fun p x => rfl)] at hne ⊢
    exact ⟨MinState_to_IsMinOf h.1 hne, MaxState_to_IsMaxOf h.2 hne⟩
  · intro w hg hne
    rw [aggregate_cycle_gids] at hg
    have h := ((agg_loop_gids_spec u
      (assign_a_target_to_all_processes st).pids _).2 i w hg).2 []
      (UptimeBase_zeroed _ i) hpos2 (fun x hx => absurd hx (List.not_mem_nil x))
    rw [List.append_nil] at h
    rw [aggregate_cycle_pids,
      memberVals_cleanup PidStat.gid_target (fun p x => rfl)] at hne ⊢
    exact ⟨MinState_to_IsMinOf h.1 hne, MaxState_to_IsMaxOf h.2 hne⟩

/-- C7 witness: with concrete members of uptimes 5 and 3, target 0 ends
with the true minimum and maximum of its members. -/
theorem aggregate_cycle_uptime_minmax_witness :
    IsMinOf (List.get
        (aggregate_processes_to_targets 0 sampleAggSys).apps_groups_root_target
        ⟨0, by decide⟩).uptime_min
      (memberVals (aggregate_processes_to_targets 0 sampleAggSys).pids
        PidStat.target 0 0) ∧
    IsMaxOf (List.get
        (aggregate_processes_to_targets 0 sampleAggSys).apps_groups_root_target
        ⟨0, by decide⟩).uptime_max
      (memberVals (aggregate_processes_to_targets 0 sampleAggSys).pids
        PidStat.target 0 0) :=
  (aggregate_cycle_uptime_minmax 0 sampleAggSys (by decide) 0).1 _
    (List.get?_eq_get (by decide)) (by decide)

/-- C7 counterexample: with members of uptimes 0 and 5 (in that order), the
cycle leaves `uptime_min = 5`, while the minimum of the members' uptime
values is 0 — so the unamended claim fails when a member's uptime equals
the "unset" sentinel. -/
theorem uptime_min_sentinel_cex :
    memberVals (aggregate_processes_to_targets 0 sampleZeroUptimeSys).pids
      PidStat.target 0 0 = [0, 5] ∧
    (List.get?
        (aggregate_processes_to_targets 0 sampleZeroUptimeSys).apps_groups_root_target
        0).map Target.uptime_min = some 5 ∧
    ¬ IsMinOf 5 [0, 5] :=
  ⟨by decide, by decide,
   fun h => absurd (h.2 0 (by decide)) (by decide)⟩

end AppsPlugin
